import Mathlib

/-!
# SimSIMD, x86 AVX2 half-precision kernels

A shallow embedding of `include/simsimd/x86_avx2_f16.h`: the three kernels
`simsimd_avx2_f16_l2sq`, `simsimd_avx2_f16_ip` and `simsimd_avx2_f16_cos`.

Modelling decisions.

* Arithmetic is exact: the kernels are written over any type `α` of values
  with `0`, `+`, `-` and `*`.  It is instantiated at commutative rings (`ℚ` for
  evaluation, `ℝ` where a square root is mentioned) and at `Fp K`, the finite
  values over `K` together with the IEEE special values `±∞` and NaN.  The
  half-to-single conversion `_mm256_cvtph_ps` is the identity on values and
  `_mm256_fmadd_ps x y z` is `x * y + z`; rounding and overflow are left out.
* A vector argument (`simsimd_f16_t const*`) is a `List α`; reading an index
  outside the list is undefined behaviour and is reported as
  `Fault.out_of_bounds`.
* The loop counter `i` is a `simsimd_size_t`: `i + 8`, `i += 8` and `++i` are
  computed modulo `2 ^ 64` (`size_wrap`).
* The two `for` loops are run with explicit fuel; running out of fuel is
  reported as `Fault.out_of_fuel`.
* `simsimd_approximate_inverse_square_root` is external to the file and is a
  parameter `rsqrt` of the cosine kernel.
* The reads of a run are observed on the traced kernels (`*_traced`): the same
  code with every read `p[i]` appending `i` to a log; erasing the log gives
  back the kernels.
* Statements about runs that return a value assume `n + 8 < 2 ^ 64`: a vector
  of `n` two-byte elements lies in a 64-bit address space, so `n ≤ 2 ^ 63`.
  Under it neither `i + 8` nor `++i` wraps.
-/

namespace SimSIMD

/-! ## Machine model -/

/-- Ways in which a run of a kernel fails to produce a value. -/
inductive Fault where
  | out_of_bounds
  | out_of_fuel
  deriving DecidableEq, Repr

/-- Modelled from the spec: `types.h` is not among the sources; `simsimd_size_t`
is the unsigned 64-bit size type, so sums of sizes are taken modulo `2 ^ 64`. -/
def size_wrap (x : Nat) : Nat := x % 2 ^ 64

/-- A 128-bit register holding eight half-precision values (`__m128i` as loaded
by `_mm_loadu_si128` from a `simsimd_f16_t` array). -/
structure M128i (α : Type) where
  h0 : α
  h1 : α
  h2 : α
  h3 : α
  h4 : α
  h5 : α
  h6 : α
  h7 : α
  deriving DecidableEq, Repr

/-- A 128-bit register holding four single-precision lanes (`__m128`). -/
structure M128 (α : Type) where
  e0 : α
  e1 : α
  e2 : α
  e3 : α
  deriving DecidableEq, Repr

/-- A 256-bit register holding eight single-precision lanes (`__m256`);
`e0 .. e3` is the low 128-bit half, `e4 .. e7` the high one. -/
structure M256 (α : Type) where
  e0 : α
  e1 : α
  e2 : α
  e3 : α
  e4 : α
  e5 : α
  e6 : α
  e7 : α
  deriving DecidableEq, Repr

section Intrinsics

variable {α : Type}

/-- The read `p[i]` of a `simsimd_f16_t const*` whose object is the list `p`. -/
def read (p : List α) (i : Nat) : Except Fault α :=
  match p.get? i with
  | some x => .ok x
  | none => .error .out_of_bounds

/-- The intrinsic `_mm_loadu_si128((__m128i const*)(p + i))`: an unaligned load
of 16 bytes, that is of the eight halves `p[i] .. p[i + 7]`. -/
def _mm_loadu_si128 (p : List α) (i : Nat) : Except Fault (M128i α) := do
  let x0 ← read p i
  let x1 ← read p (i + 1)
  let x2 ← read p (i + 2)
  let x3 ← read p (i + 3)
  let x4 ← read p (i + 4)
  let x5 ← read p (i + 5)
  let x6 ← read p (i + 6)
  let x7 ← read p (i + 7)
  pure ⟨x0, x1, x2, x3, x4, x5, x6, x7⟩

/-- The intrinsic `_mm256_cvtph_ps`: lane-wise half-to-single conversion, exact
on every half-precision value. -/
def _mm256_cvtph_ps (v : M128i α) : M256 α :=
  ⟨v.h0, v.h1, v.h2, v.h3, v.h4, v.h5, v.h6, v.h7⟩

/-- The intrinsic `_mm256_set1_ps`: broadcast of one scalar to all lanes. -/
def _mm256_set1_ps (x : α) : M256 α := ⟨x, x, x, x, x, x, x, x⟩

/-- The intrinsic `_mm256_castps256_ps128`: the low 128-bit half. -/
def _mm256_castps256_ps128 (v : M256 α) : M128 α := ⟨v.e0, v.e1, v.e2, v.e3⟩

/-- The intrinsic `_mm_store_ss`: the value written to memory, lane 0. -/
def _mm_store_ss (v : M128 α) : α := v.e0

/-- One 128-bit half selected by a 2-bit control, the `SELECT4` of the
instruction `VPERM2F128`. -/
def select4 (src1 src2 : M256 α) (control : Nat) : M128 α :=
  match control % 4 with
  | 0 => ⟨src1.e0, src1.e1, src1.e2, src1.e3⟩
  | 1 => ⟨src1.e4, src1.e5, src1.e6, src1.e7⟩
  | 2 => ⟨src2.e0, src2.e1, src2.e2, src2.e3⟩
  | _ => ⟨src2.e4, src2.e5, src2.e6, src2.e7⟩

/-- The intrinsic `_mm256_permute2f128_ps(a, b, imm8)`: the low half of the
result is selected by `imm8[3:0]`, the high half by `imm8[7:4]`; bit 3 of each
nibble zeroes the half. -/
def _mm256_permute2f128_ps [Zero α] (a b : M256 α) (imm8 : Nat) : M256 α :=
  let lo : M128 α := if imm8 / 8 % 2 = 1 then ⟨0, 0, 0, 0⟩ else select4 a b (imm8 % 16)
  let hi : M128 α := if imm8 / 128 % 2 = 1 then ⟨0, 0, 0, 0⟩ else select4 a b (imm8 / 16 % 16)
  ⟨lo.e0, lo.e1, lo.e2, lo.e3, hi.e0, hi.e1, hi.e2, hi.e3⟩

/-- The intrinsic `_mm256_add_ps`: lane-wise sum. -/
def _mm256_add_ps [Add α] (a b : M256 α) : M256 α :=
  ⟨a.e0 + b.e0, a.e1 + b.e1, a.e2 + b.e2, a.e3 + b.e3,
   a.e4 + b.e4, a.e5 + b.e5, a.e6 + b.e6, a.e7 + b.e7⟩

/-- The intrinsic `_mm256_sub_ps`: lane-wise difference. -/
def _mm256_sub_ps [Sub α] (a b : M256 α) : M256 α :=
  ⟨a.e0 - b.e0, a.e1 - b.e1, a.e2 - b.e2, a.e3 - b.e3,
   a.e4 - b.e4, a.e5 - b.e5, a.e6 - b.e6, a.e7 - b.e7⟩

/-- The intrinsic `_mm256_fmadd_ps(a, b, c)`: lane-wise `a * b + c`. -/
def _mm256_fmadd_ps [Mul α] [Add α] (a b c : M256 α) : M256 α :=
  ⟨a.e0 * b.e0 + c.e0, a.e1 * b.e1 + c.e1, a.e2 * b.e2 + c.e2, a.e3 * b.e3 + c.e3,
   a.e4 * b.e4 + c.e4, a.e5 * b.e5 + c.e5, a.e6 * b.e6 + c.e6, a.e7 * b.e7 + c.e7⟩

/-- The intrinsic `_mm256_hadd_ps(a, b)`: sums of adjacent pairs, separately in
each 128-bit half. -/
def _mm256_hadd_ps [Add α] (a b : M256 α) : M256 α :=
  ⟨a.e1 + a.e0, a.e3 + a.e2, b.e1 + b.e0, b.e3 + b.e2,
   a.e5 + a.e4, a.e7 + a.e6, b.e5 + b.e4, b.e7 + b.e6⟩

end Intrinsics

/-! ## The two loop shapes shared by the kernels -/

section Loops

variable {σ : Type}

/-- The loop `for (; i + 8 <= n; i += 8) body`, started at counter `i` in state
`s`; returns the final counter together with the final state. -/
def chunk_loop (n : Nat) (body : Nat → σ → Except Fault σ) :
    Nat → Nat → σ → Except Fault (Nat × σ)
  | 0, _, _ => .error .out_of_fuel
  | fuel + 1, i, s =>
    if size_wrap (i + 8) ≤ n then
      match body i s with
      | .ok s1 => chunk_loop n body fuel (size_wrap (i + 8)) s1
      | .error e => .error e
    else .ok (i, s)

/-- The loop `for (; i < n; ++i) body`, started at counter `i` in state `s`. -/
def tail_loop (n : Nat) (body : Nat → σ → Except Fault σ) :
    Nat → Nat → σ → Except Fault σ
  | 0, _, _ => .error .out_of_fuel
  | fuel + 1, i, s =>
    if i < n then
      match body i s with
      | .ok s1 => tail_loop n body fuel (size_wrap (i + 1)) s1
      | .error e => .error e
    else .ok s

end Loops

/-! ## The kernels -/

section Kernels

variable {α : Type}

/-- The kernel `simsimd_avx2_f16_l2sq(a, b, n)`. -/
def simsimd_avx2_f16_l2sq [Zero α] [Add α] [Sub α] [Mul α] (fuel : Nat) (a b : List α)
    (n : Nat) : Except Fault α := do
  let d2_vec : M256 α := _mm256_set1_ps 0
  let (i, d2_vec) ← chunk_loop n (fun i d2_vec => do
      let a_vec := _mm256_cvtph_ps (← _mm_loadu_si128 a i)
      let b_vec := _mm256_cvtph_ps (← _mm_loadu_si128 b i)
      let d_vec := _mm256_sub_ps a_vec b_vec
      pure (_mm256_fmadd_ps d_vec d_vec d2_vec)) fuel 0 d2_vec
  let d2_vec := _mm256_add_ps (_mm256_permute2f128_ps d2_vec d2_vec 1) d2_vec
  let d2_vec := _mm256_hadd_ps d2_vec d2_vec
  let d2_vec := _mm256_hadd_ps d2_vec d2_vec
  let result := _mm_store_ss (_mm256_castps256_ps128 d2_vec)
  tail_loop n (fun i result => do
      pure (result + ((← read a i) - (← read b i)) * ((← read a i) - (← read b i))))
    fuel i result

/-- The kernel `simsimd_avx2_f16_ip(a, b, n)`. -/
def simsimd_avx2_f16_ip [Zero α] [Add α] [Mul α] (fuel : Nat) (a b : List α) (n : Nat) :
    Except Fault α := do
  let ab_vec : M256 α := _mm256_set1_ps 0
  let (i, ab_vec) ← chunk_loop n (fun i ab_vec => do
      let a_vec := _mm256_cvtph_ps (← _mm_loadu_si128 a i)
      let b_vec := _mm256_cvtph_ps (← _mm_loadu_si128 b i)
      pure (_mm256_fmadd_ps a_vec b_vec ab_vec)) fuel 0 ab_vec
  let ab_vec := _mm256_add_ps (_mm256_permute2f128_ps ab_vec ab_vec 1) ab_vec
  let ab_vec := _mm256_hadd_ps ab_vec ab_vec
  let ab_vec := _mm256_hadd_ps ab_vec ab_vec
  let result := _mm_store_ss (_mm256_castps256_ps128 ab_vec)
  tail_loop n (fun i result => do
      pure (result + (← read a i) * (← read b i)))
    fuel i result

/-- The kernel `simsimd_avx2_f16_cos(a, b, n)`; `rsqrt` stands for the external
`simsimd_approximate_inverse_square_root`. -/
def simsimd_avx2_f16_cos [Zero α] [Add α] [Mul α] (rsqrt : α → α) (fuel : Nat) (a b : List α)
    (n : Nat) : Except Fault α := do
  let ab_vec : M256 α := _mm256_set1_ps 0
  let a2_vec : M256 α := _mm256_set1_ps 0
  let b2_vec : M256 α := _mm256_set1_ps 0
  let (i, ab_vec, a2_vec, b2_vec) ← chunk_loop n (fun i (ab_vec, a2_vec, b2_vec) => do
      let a_vec := _mm256_cvtph_ps (← _mm_loadu_si128 a i)
      let b_vec := _mm256_cvtph_ps (← _mm_loadu_si128 b i)
      let ab_vec := _mm256_fmadd_ps a_vec b_vec ab_vec
      let a2_vec := _mm256_fmadd_ps a_vec a_vec a2_vec
      let b2_vec := _mm256_fmadd_ps b_vec b_vec b2_vec
      pure (ab_vec, a2_vec, b2_vec)) fuel 0 (ab_vec, a2_vec, b2_vec)
  let ab_vec := _mm256_add_ps (_mm256_permute2f128_ps ab_vec ab_vec 1) ab_vec
  let ab_vec := _mm256_hadd_ps ab_vec ab_vec
  let ab_vec := _mm256_hadd_ps ab_vec ab_vec
  let a2_vec := _mm256_add_ps (_mm256_permute2f128_ps a2_vec a2_vec 1) a2_vec
  let a2_vec := _mm256_hadd_ps a2_vec a2_vec
  let a2_vec := _mm256_hadd_ps a2_vec a2_vec
  let b2_vec := _mm256_add_ps (_mm256_permute2f128_ps b2_vec b2_vec 1) b2_vec
  let b2_vec := _mm256_hadd_ps b2_vec b2_vec
  let b2_vec := _mm256_hadd_ps b2_vec b2_vec
  let result0 := _mm_store_ss (_mm256_castps256_ps128 ab_vec)
  let result1 := _mm_store_ss (_mm256_castps256_ps128 a2_vec)
  let result2 := _mm_store_ss (_mm256_castps256_ps128 b2_vec)
  let (result0, result1, result2) ← tail_loop n (fun i (result0, result1, result2) => do
      let result0 := result0 + (← read a i) * (← read b i)
      let result1 := result1 + (← read a i) * (← read a i)
      let result2 := result2 + (← read b i) * (← read b i)
      pure (result0, result1, result2)) fuel i (result0, result1, result2)
  pure (result0 * rsqrt (result1 * result2))

end Kernels

/-! ## Specification side: reference sums and accumulator contents -/

section Closed

open Finset

variable {α : Type} [CommRing α]

/-- The per-element term of the squared distance at index `i`, as written in
the tail loop of `simsimd_avx2_f16_l2sq`. -/
def l2sq_term (a b : List α) (i : Nat) : α :=
  (a.getD i 0 - b.getD i 0) * (a.getD i 0 - b.getD i 0)

/-- The per-element term of the inner product at index `i`, as written in the
tail loop of `simsimd_avx2_f16_ip`. -/
def ip_term (a b : List α) (i : Nat) : α := a.getD i 0 * b.getD i 0

/-- The pure scalar reference of the spec, a single linear scan:
`r = 0; for (i = 0; i < n; ++i) r += t i`. -/
def scalar_scan (t : Nat → α) : Nat → α
  | 0 => 0
  | n + 1 => scalar_scan t n + t n

/-- The lanes of an accumulator after `k` chunks: lane `j` holds the sum of the
terms at the indices `8 * c + j`, `c < k`. -/
def lane_sums (t : Nat → α) (k : Nat) : M256 α :=
  ⟨∑ c in range k, t (8 * c), ∑ c in range k, t (8 * c + 1),
   ∑ c in range k, t (8 * c + 2), ∑ c in range k, t (8 * c + 3),
   ∑ c in range k, t (8 * c + 4), ∑ c in range k, t (8 * c + 5),
   ∑ c in range k, t (8 * c + 6), ∑ c in range k, t (8 * c + 7)⟩

/-- The horizontal reduction written out in each kernel: swap-and-add of the two
128-bit halves, two horizontal adds and the store of lane 0. -/
def reduce_lanes {α : Type} [Zero α] [Add α] (v : M256 α) : α :=
  let v := _mm256_add_ps (_mm256_permute2f128_ps v v 1) v
  let v := _mm256_hadd_ps v v
  let v := _mm256_hadd_ps v v
  _mm_store_ss (_mm256_castps256_ps128 v)

end Closed

/-! ## Iterations of the loops -/

section Iterations

/-- The iteration counts of a kernel called with length `n`: the two loops of
the kernels run with bodies that only count their executions.  Returns the
number of iterations of the chunk loop, the counter `i` it leaves, and the
number of iterations of the tail loop. -/
def loop_counts (fuel n : Nat) : Except Fault (Nat × Nat × Nat) := do
  let (i, chunks) ← chunk_loop n (fun _ c => pure (c + 1)) fuel 0 0
  let tails ← tail_loop n (fun _ c => pure (c + 1)) fuel i 0
  pure (chunks, i, tails)

variable {α : Type}

/-- The body of the chunk loop of `simsimd_avx2_f16_l2sq`. -/
def l2sq_chunk_body [Add α] [Sub α] [Mul α] (a b : List α) (i : Nat) (d2_vec : M256 α) :
    Except Fault (M256 α) := do
  let a_vec := _mm256_cvtph_ps (← _mm_loadu_si128 a i)
  let b_vec := _mm256_cvtph_ps (← _mm_loadu_si128 b i)
  let d_vec := _mm256_sub_ps a_vec b_vec
  pure (_mm256_fmadd_ps d_vec d_vec d2_vec)

/-- The body of the chunk loop of `simsimd_avx2_f16_ip`. -/
def ip_chunk_body [Add α] [Mul α] (a b : List α) (i : Nat) (ab_vec : M256 α) :
    Except Fault (M256 α) := do
  let a_vec := _mm256_cvtph_ps (← _mm_loadu_si128 a i)
  let b_vec := _mm256_cvtph_ps (← _mm_loadu_si128 b i)
  pure (_mm256_fmadd_ps a_vec b_vec ab_vec)

/-- The body of the chunk loop of `simsimd_avx2_f16_cos`. -/
def cos_chunk_body [Add α] [Mul α] (a b : List α) (i : Nat) :
    M256 α × M256 α × M256 α → Except Fault (M256 α × M256 α × M256 α) :=
  fun (ab_vec, a2_vec, b2_vec) => do
    let a_vec := _mm256_cvtph_ps (← _mm_loadu_si128 a i)
    let b_vec := _mm256_cvtph_ps (← _mm_loadu_si128 b i)
    let ab_vec := _mm256_fmadd_ps a_vec b_vec ab_vec
    let a2_vec := _mm256_fmadd_ps a_vec a_vec a2_vec
    let b2_vec := _mm256_fmadd_ps b_vec b_vec b2_vec
    pure (ab_vec, a2_vec, b2_vec)

/-- The body of the tail loop of `simsimd_avx2_f16_l2sq`. -/
def l2sq_tail_body [Add α] [Sub α] [Mul α] (a b : List α) (i : Nat) (result : α) :
    Except Fault α := do
  pure (result + ((← read a i) - (← read b i)) * ((← read a i) - (← read b i)))

/-- The body of the tail loop of `simsimd_avx2_f16_ip`. -/
def ip_tail_body [Add α] [Mul α] (a b : List α) (i : Nat) (result : α) : Except Fault α := do
  pure (result + (← read a i) * (← read b i))

/-- The body of the tail loop of `simsimd_avx2_f16_cos`. -/
def cos_tail_body [Add α] [Mul α] (a b : List α) (i : Nat) :
    α × α × α → Except Fault (α × α × α) :=
  fun (result0, result1, result2) => do
    let result0 := result0 + (← read a i) * (← read b i)
    let result1 := result1 + (← read a i) * (← read a i)
    let result2 := result2 + (← read b i) * (← read b i)
    pure (result0, result1, result2)

end Iterations

/-! ## Values with the IEEE special values -/

/-- The values of an IEEE binary format with rounding, overflow and the sign of
zero left out: the finite numbers (exact, over `K`), the two infinities
(`inf true` is `-∞`) and NaN. -/
inductive Fp (K : Type) where
  | fin (x : K)
  | inf (negative : Bool)
  | nan
  deriving DecidableEq, Repr

section FpArith

variable {K : Type} [LinearOrderedRing K]

/-- IEEE addition: `∞ + (-∞)` is NaN, NaN propagates. -/
def Fp.add : Fp K → Fp K → Fp K
  | .fin x, .fin y => .fin (x + y)
  | .fin _, .inf s => .inf s
  | .inf s, .fin _ => .inf s
  | .inf s, .inf t => if s = t then .inf s else .nan
  | .nan, _ => .nan
  | _, .nan => .nan

/-- IEEE subtraction: `∞ - ∞` is NaN, NaN propagates. -/
def Fp.sub : Fp K → Fp K → Fp K
  | .fin x, .fin y => .fin (x - y)
  | .fin _, .inf s => .inf (!s)
  | .inf s, .fin _ => .inf s
  | .inf s, .inf t => if s = t then .nan else .inf s
  | .nan, _ => .nan
  | _, .nan => .nan

/-- IEEE multiplication: `0 * ∞` is NaN, NaN propagates, signs multiply. -/
def Fp.mul : Fp K → Fp K → Fp K
  | .fin x, .fin y => .fin (x * y)
  | .fin x, .inf s => if x = 0 then .nan else .inf (decide (x < 0) != s)
  | .inf s, .fin y => if y = 0 then .nan else .inf (s != decide (y < 0))
  | .inf s, .inf t => .inf (s != t)
  | .nan, _ => .nan
  | _, .nan => .nan

/-- IEEE comparison `x <= y`: false as soon as one side is NaN. -/
def Fp.le : Fp K → Fp K → Prop
  | .fin x, .fin y => x ≤ y
  | .fin _, .inf s => s = false
  | .inf s, .fin _ => s = true
  | .inf s, .inf t => s = true ∨ t = false
  | .nan, _ => False
  | _, .nan => False

/-- The IEEE reciprocal square root on `Fp K` built from a function `r` giving
its finite values at the positive numbers: `+∞` at `0`, NaN at the negative
numbers and at `-∞`, `0` at `+∞`. -/
def Fp.rsqrt_of (r : K → K) : Fp K → Fp K
  | .fin x => if x = 0 then .inf false else if 0 < x then .fin (r x) else .nan
  | .inf false => .fin 0
  | .inf true => .nan
  | .nan => .nan

instance : Zero (Fp K) := ⟨.fin 0⟩

instance : Add (Fp K) := ⟨Fp.add⟩

instance : Sub (Fp K) := ⟨Fp.sub⟩

instance : Mul (Fp K) := ⟨Fp.mul⟩

instance : LE (Fp K) := ⟨Fp.le⟩

end FpArith

/-! ## Change of the type of values -/

section MapValues

variable {α β : Type}

/-- The lanes of a register of halves mapped through `φ`. -/
def M128i.map (φ : α → β) (v : M128i α) : M128i β :=
  ⟨φ v.h0, φ v.h1, φ v.h2, φ v.h3, φ v.h4, φ v.h5, φ v.h6, φ v.h7⟩

/-- The lanes of a 256-bit register mapped through `φ`. -/
def M256.map (φ : α → β) (v : M256 α) : M256 β :=
  ⟨φ v.e0, φ v.e1, φ v.e2, φ v.e3, φ v.e4, φ v.e5, φ v.e6, φ v.e7⟩

end MapValues

/-! ## The sums of the cosine kernel -/

section CosSums

variable {α : Type}

/-- The kernel `simsimd_avx2_f16_cos` up to its last line: the three scalars
`result[0]`, `result[1]`, `result[2]` after the tail loop. -/
def cos_sums [Zero α] [Add α] [Mul α] (fuel : Nat) (a b : List α) (n : Nat) :
    Except Fault (α × α × α) :=
  chunk_loop n (cos_chunk_body a b) fuel 0
      (_mm256_set1_ps 0, _mm256_set1_ps 0, _mm256_set1_ps 0) >>= fun r =>
    tail_loop n (cos_tail_body a b) fuel r.1
      (reduce_lanes r.2.1, reduce_lanes r.2.2.1, reduce_lanes r.2.2.2)

end CosSums

/-! ## Traced runs: the kernels with a log of their reads -/

/-- Which of the two vector arguments a read addresses. -/
inductive Operand where
  | a
  | b
  deriving DecidableEq, Repr

/-- The indices read from `a` and from `b`, each in program order. -/
structure ReadLog where
  a : List Nat
  b : List Nat
  deriving DecidableEq, Repr

/-- The log extended by one read of index `i` of the operand `op`. -/
def ReadLog.record (log : ReadLog) (op : Operand) (i : Nat) : ReadLog :=
  match op with
  | .a => ⟨log.a ++ [i], log.b⟩
  | .b => ⟨log.a, log.b ++ [i]⟩

section Traced

variable {α : Type}

/-- The read `p[i]` of the operand `op`, recorded in the log. -/
def read_traced (op : Operand) (p : List α) (i : Nat) (log : ReadLog) :
    Except Fault (α × ReadLog) := do
  let x ← read p i
  pure (x, log.record op i)

/-- The load `_mm_loadu_si128 (p + i)` with its eight reads recorded. -/
def _mm_loadu_si128_traced (op : Operand) (p : List α) (i : Nat) (log : ReadLog) :
    Except Fault (M128i α × ReadLog) := do
  let (x0, log) ← read_traced op p i log
  let (x1, log) ← read_traced op p (i + 1) log
  let (x2, log) ← read_traced op p (i + 2) log
  let (x3, log) ← read_traced op p (i + 3) log
  let (x4, log) ← read_traced op p (i + 4) log
  let (x5, log) ← read_traced op p (i + 5) log
  let (x6, log) ← read_traced op p (i + 6) log
  let (x7, log) ← read_traced op p (i + 7) log
  pure (⟨x0, x1, x2, x3, x4, x5, x6, x7⟩, log)

/-- The body of the chunk loop of `simsimd_avx2_f16_l2sq`, reads recorded. -/
def l2sq_chunk_body_traced [Add α] [Sub α] [Mul α] (a b : List α) (i : Nat) :
    M256 α × ReadLog → Except Fault (M256 α × ReadLog) :=
  fun (d2_vec, log) => do
    let (a_half, log) ← _mm_loadu_si128_traced .a a i log
    let a_vec := _mm256_cvtph_ps a_half
    let (b_half, log) ← _mm_loadu_si128_traced .b b i log
    let b_vec := _mm256_cvtph_ps b_half
    let d_vec := _mm256_sub_ps a_vec b_vec
    pure (_mm256_fmadd_ps d_vec d_vec d2_vec, log)

/-- The body of the tail loop of `simsimd_avx2_f16_l2sq`, reads recorded: the
expression `(a[i] - b[i]) * (a[i] - b[i])` names `a[i]` and `b[i]` twice. -/
def l2sq_tail_body_traced [Add α] [Sub α] [Mul α] (a b : List α) (i : Nat) :
    α × ReadLog → Except Fault (α × ReadLog) :=
  fun (result, log) => do
    let (a0, log) ← read_traced .a a i log
    let (b0, log) ← read_traced .b b i log
    let (a1, log) ← read_traced .a a i log
    let (b1, log) ← read_traced .b b i log
    pure (result + (a0 - b0) * (a1 - b1), log)

/-- The kernel `simsimd_avx2_f16_l2sq` with its reads recorded: returns the
result, the log of the chunk loop and the log of the tail loop. -/
def simsimd_avx2_f16_l2sq_traced [Zero α] [Add α] [Sub α] [Mul α] (fuel : Nat) (a b : List α)
    (n : Nat) : Except Fault (α × ReadLog × ReadLog) := do
  let d2_vec : M256 α := _mm256_set1_ps 0
  let (i, d2_vec, chunk_log) ←
    chunk_loop n (l2sq_chunk_body_traced a b) fuel 0 (d2_vec, ⟨[], []⟩)
  let d2_vec := _mm256_add_ps (_mm256_permute2f128_ps d2_vec d2_vec 1) d2_vec
  let d2_vec := _mm256_hadd_ps d2_vec d2_vec
  let d2_vec := _mm256_hadd_ps d2_vec d2_vec
  let result := _mm_store_ss (_mm256_castps256_ps128 d2_vec)
  let (result, tail_log) ←
    tail_loop n (l2sq_tail_body_traced a b) fuel i (result, ⟨[], []⟩)
  pure (result, chunk_log, tail_log)

/-- The body of the chunk loop of `simsimd_avx2_f16_ip`, reads recorded. -/
def ip_chunk_body_traced [Add α] [Mul α] (a b : List α) (i : Nat) :
    M256 α × ReadLog → Except Fault (M256 α × ReadLog) :=
  fun (ab_vec, log) => do
    let (a_half, log) ← _mm_loadu_si128_traced .a a i log
    let a_vec := _mm256_cvtph_ps a_half
    let (b_half, log) ← _mm_loadu_si128_traced .b b i log
    let b_vec := _mm256_cvtph_ps b_half
    pure (_mm256_fmadd_ps a_vec b_vec ab_vec, log)

/-- The body of the tail loop of `simsimd_avx2_f16_ip`, reads recorded. -/
def ip_tail_body_traced [Add α] [Mul α] (a b : List α) (i : Nat) :
    α × ReadLog → Except Fault (α × ReadLog) :=
  fun (result, log) => do
    let (a0, log) ← read_traced .a a i log
    let (b0, log) ← read_traced .b b i log
    pure (result + a0 * b0, log)

/-- The kernel `simsimd_avx2_f16_ip` with its reads recorded: returns the
result, the log of the chunk loop and the log of the tail loop. -/
def simsimd_avx2_f16_ip_traced [Zero α] [Add α] [Mul α] (fuel : Nat) (a b : List α)
    (n : Nat) : Except Fault (α × ReadLog × ReadLog) := do
  let ab_vec : M256 α := _mm256_set1_ps 0
  let (i, ab_vec, chunk_log) ←
    chunk_loop n (ip_chunk_body_traced a b) fuel 0 (ab_vec, ⟨[], []⟩)
  let ab_vec := _mm256_add_ps (_mm256_permute2f128_ps ab_vec ab_vec 1) ab_vec
  let ab_vec := _mm256_hadd_ps ab_vec ab_vec
  let ab_vec := _mm256_hadd_ps ab_vec ab_vec
  let result := _mm_store_ss (_mm256_castps256_ps128 ab_vec)
  let (result, tail_log) ←
    tail_loop n (ip_tail_body_traced a b) fuel i (result, ⟨[], []⟩)
  pure (result, chunk_log, tail_log)

/-- The body of the chunk loop of `simsimd_avx2_f16_cos`, reads recorded. -/
def cos_chunk_body_traced [Add α] [Mul α] (a b : List α) (i : Nat) :
    (M256 α × M256 α × M256 α) × ReadLog →
      Except Fault ((M256 α × M256 α × M256 α) × ReadLog) :=
  fun ((ab_vec, a2_vec, b2_vec), log) => do
    let (a_half, log) ← _mm_loadu_si128_traced .a a i log
    let a_vec := _mm256_cvtph_ps a_half
    let (b_half, log) ← _mm_loadu_si128_traced .b b i log
    let b_vec := _mm256_cvtph_ps b_half
    let ab_vec := _mm256_fmadd_ps a_vec b_vec ab_vec
    let a2_vec := _mm256_fmadd_ps a_vec a_vec a2_vec
    let b2_vec := _mm256_fmadd_ps b_vec b_vec b2_vec
    pure ((ab_vec, a2_vec, b2_vec), log)

/-- The body of the tail loop of `simsimd_avx2_f16_cos`, reads recorded: the
three updates name `a[i]` and `b[i]` three times each. -/
def cos_tail_body_traced [Add α] [Mul α] (a b : List α) (i : Nat) :
    (α × α × α) × ReadLog → Except Fault ((α × α × α) × ReadLog) :=
  fun ((result0, result1, result2), log) => do
    let (a0, log) ← read_traced .a a i log
    let (b0, log) ← read_traced .b b i log
    let result0 := result0 + a0 * b0
    let (a1, log) ← read_traced .a a i log
    let (a2, log) ← read_traced .a a i log
    let result1 := result1 + a1 * a2
    let (b1, log) ← read_traced .b b i log
    let (b2, log) ← read_traced .b b i log
    let result2 := result2 + b1 * b2
    pure ((result0, result1, result2), log)

/-- The kernel `simsimd_avx2_f16_cos` with its reads recorded: returns the
result, the log of the chunk loop and the log of the tail loop. -/
def simsimd_avx2_f16_cos_traced [Zero α] [Add α] [Mul α] (rsqrt : α → α) (fuel : Nat)
    (a b : List α) (n : Nat) : Except Fault (α × ReadLog × ReadLog) := do
  let ab_vec : M256 α := _mm256_set1_ps 0
  let a2_vec : M256 α := _mm256_set1_ps 0
  let b2_vec : M256 α := _mm256_set1_ps 0
  let (i, (ab_vec, a2_vec, b2_vec), chunk_log) ←
    chunk_loop n (cos_chunk_body_traced a b) fuel 0 ((ab_vec, a2_vec, b2_vec), ⟨[], []⟩)
  let ab_vec := _mm256_add_ps (_mm256_permute2f128_ps ab_vec ab_vec 1) ab_vec
  let ab_vec := _mm256_hadd_ps ab_vec ab_vec
  let ab_vec := _mm256_hadd_ps ab_vec ab_vec
  let a2_vec := _mm256_add_ps (_mm256_permute2f128_ps a2_vec a2_vec 1) a2_vec
  let a2_vec := _mm256_hadd_ps a2_vec a2_vec
  let a2_vec := _mm256_hadd_ps a2_vec a2_vec
  let b2_vec := _mm256_add_ps (_mm256_permute2f128_ps b2_vec b2_vec 1) b2_vec
  let b2_vec := _mm256_hadd_ps b2_vec b2_vec
  let b2_vec := _mm256_hadd_ps b2_vec b2_vec
  let result0 := _mm_store_ss (_mm256_castps256_ps128 ab_vec)
  let result1 := _mm_store_ss (_mm256_castps256_ps128 a2_vec)
  let result2 := _mm_store_ss (_mm256_castps256_ps128 b2_vec)
  let ((result0, result1, result2), tail_log) ←
    tail_loop n (cos_tail_body_traced a b) fuel i ((result0, result1, result2), ⟨[], []⟩)
  pure (result0 * rsqrt (result1 * result2), chunk_log, tail_log)

end Traced

/-! ## Lemmas on the machine model -/

section Lemmas

theorem size_wrap_of_lt {x : Nat} (h : x < 2 ^ 64) : size_wrap x = x :=
  Nat.mod_eq_of_lt h

variable {α : Type}

theorem read_of_lt [Zero α] (p : List α) (i : Nat) (h : i < p.length) :
    read p i = .ok (p.getD i 0) := by
  simp [read, List.getD, List.getElem?_eq_getElem h]

theorem loadu_of_le [Zero α] (p : List α) (i : Nat) (h : i + 8 ≤ p.length) :
    _mm_loadu_si128 p i = .ok ⟨p.getD i 0, p.getD (i + 1) 0, p.getD (i + 2) 0, p.getD (i + 3) 0,
      p.getD (i + 4) 0, p.getD (i + 5) 0, p.getD (i + 6) 0, p.getD (i + 7) 0⟩ := by
  unfold _mm_loadu_si128
  rw [read_of_lt p i (by omega), read_of_lt p (i + 1) (by omega), read_of_lt p (i + 2) (by omega),
    read_of_lt p (i + 3) (by omega), read_of_lt p (i + 4) (by omega),
    read_of_lt p (i + 5) (by omega), read_of_lt p (i + 6) (by omega),
    read_of_lt p (i + 7) (by omega)]
  rfl

variable {σ : Type}

theorem chunk_loop_spec (n : Nat) (body : Nat → σ → Except Fault σ) :
    ∀ (m : Nat) (F : Nat → σ) (i fuel : Nat),
      (∀ k, k < m → body (i + 8 * k) (F k) = .ok (F (k + 1))) →
      i + 8 * m ≤ n → n < i + 8 * m + 8 → i + 8 * m + 8 < 2 ^ 64 → m < fuel →
      chunk_loop n body fuel i (F 0) = .ok (i + 8 * m, F m) := by
  intro m
  induction m with
  | zero =>
    intro F i fuel _ _ hn hw hf
    obtain ⟨f, rfl⟩ : ∃ f, fuel = f + 1 := ⟨fuel - 1, by omega⟩
    have hs : size_wrap (i + 8) = i + 8 := size_wrap_of_lt (by omega)
    have : ¬ (i + 8 ≤ n) := by omega
    simp [chunk_loop, hs, this]
  | succ m ih =>
    intro F i fuel hb hle hn hw hf
    obtain ⟨f, rfl⟩ : ∃ f, fuel = f + 1 := ⟨fuel - 1, by omega⟩
    have hs : size_wrap (i + 8) = i + 8 := size_wrap_of_lt (by omega)
    have h8 : i + 8 ≤ n := by omega
    have h0 := hb 0 (by omega)
    simp only [Nat.mul_zero, Nat.add_zero, Nat.zero_add] at h0
    have step := ih (fun k => F (k + 1)) (i + 8) f
      (fun k hk => by
        have := hb (k + 1) (by omega)
        rw [show i + 8 + 8 * k = i + 8 * (k + 1) by ring]
        exact this)
      (by omega) (by omega) (by omega) (by omega)
    simp only [chunk_loop, hs, h8, if_true, h0]
    rw [step]
    congr 2
    ring

theorem tail_loop_spec (n : Nat) (body : Nat → σ → Except Fault σ) :
    ∀ (r : Nat) (G : Nat → σ) (i fuel : Nat),
      (∀ k, k < r → body (i + k) (G k) = .ok (G (k + 1))) →
      i + r = n → n < 2 ^ 64 → r < fuel →
      tail_loop n body fuel i (G 0) = .ok (G r) := by
  intro r
  induction r with
  | zero =>
    intro G i fuel _ hn _ hf
    obtain ⟨f, rfl⟩ : ∃ f, fuel = f + 1 := ⟨fuel - 1, by omega⟩
    have : ¬ (i < n) := by omega
    simp [tail_loop, this]
  | succ r ih =>
    intro G i fuel hb hn hw hf
    obtain ⟨f, rfl⟩ : ∃ f, fuel = f + 1 := ⟨fuel - 1, by omega⟩
    have hs : size_wrap (i + 1) = i + 1 := size_wrap_of_lt (by omega)
    have hlt : i < n := by omega
    have h0 := hb 0 (by omega)
    simp only [Nat.add_zero, Nat.zero_add] at h0
    have step := ih (fun k => G (k + 1)) (i + 1) f
      (fun k hk => by
        have := hb (k + 1) (by omega)
        rw [show i + 1 + k = i + (k + 1) by ring]
        exact this)
      (by omega) hw (by omega)
    simp only [tail_loop, hs, hlt, if_true, h0]
    exact step

end Lemmas
section ClosedLemmas

open Finset

variable {α : Type} [CommRing α]

theorem scalar_scan_eq_sum (t : Nat → α) (n : Nat) :
    scalar_scan t n = ∑ i in range n, t i := by
  induction n with
  | zero => simp [scalar_scan]
  | succ n ih => rw [scalar_scan, ih, sum_range_succ]

theorem reduce_lanes_eq (v : M256 α) :
    reduce_lanes v = v.e0 + v.e1 + v.e2 + v.e3 + v.e4 + v.e5 + v.e6 + v.e7 := by
  simp [reduce_lanes, _mm256_add_ps, _mm256_permute2f128_ps, _mm256_hadd_ps, _mm_store_ss,
    _mm256_castps256_ps128, select4]
  ring

theorem sum_range_eight_mul (t : Nat → α) (k : Nat) :
    ∑ i in range (8 * k), t i =
      ∑ c in range k, t (8 * c) + ∑ c in range k, t (8 * c + 1) +
      ∑ c in range k, t (8 * c + 2) + ∑ c in range k, t (8 * c + 3) +
      ∑ c in range k, t (8 * c + 4) + ∑ c in range k, t (8 * c + 5) +
      ∑ c in range k, t (8 * c + 6) + ∑ c in range k, t (8 * c + 7) := by
  induction k with
  | zero => simp
  | succ k ih =>
    rw [show 8 * (k + 1) = 8 * k + 1 + 1 + 1 + 1 + 1 + 1 + 1 + 1 by ring]
    simp only [sum_range_succ, ih]
    ring

theorem reduce_lane_sums (t : Nat → α) (k : Nat) :
    reduce_lanes (lane_sums t k) = ∑ i in range (8 * k), t i := by
  rw [reduce_lanes_eq, sum_range_eight_mul]
  rfl

theorem lane_sums_zero (t : Nat → α) : lane_sums t 0 = _mm256_set1_ps 0 := by
  simp [lane_sums, _mm256_set1_ps]

end ClosedLemmas

section KernelLemmas

open Finset

variable {α : Type} [CommRing α]

theorem ok_bind {β γ : Type} (x : β) (f : β → Except Fault γ) :
    (Except.ok x >>= f) = f x := rfl

theorem l2sq_closed (fuel : Nat) (a b : List α) (n : Nat)
    (ha : n ≤ a.length) (hb : n ≤ b.length) (hn : n + 8 < 2 ^ 64) (hf : n < fuel) :
    simsimd_avx2_f16_l2sq fuel a b n = .ok (∑ i in range n, l2sq_term a b i) := by
  unfold simsimd_avx2_f16_l2sq
  have hm : 8 * (n / 8) + n % 8 = n := Nat.div_add_mod n 8
  have hr : n % 8 < 8 := Nat.mod_lt n (by decide)
  rw [← lane_sums_zero (l2sq_term a b)]
  dsimp only
  rw [chunk_loop_spec n _ (n / 8) (lane_sums (l2sq_term a b)) 0 fuel ?_
    (by omega) (by omega) (by omega) (by omega)]
  · simp only [Nat.zero_add]
    have := tail_loop_spec n (fun i result => do
      pure (result + ((← read a i) - (← read b i)) * ((← read a i) - (← read b i))))
      (n % 8) (fun k => ∑ i in range (8 * (n / 8) + k), l2sq_term a b i) (8 * (n / 8)) fuel
      ?_ (by omega) (by omega) (by omega)
    · simp only [Nat.add_zero, hm] at this
      rw [← reduce_lane_sums] at this
      exact this
    · intro k hk
      dsimp only
      rw [read_of_lt a (8 * (n / 8) + k) (by omega), read_of_lt b (8 * (n / 8) + k) (by omega)]
      simp only [← Nat.add_assoc, sum_range_succ]
      rfl
  · intro k hk
    dsimp only
    rw [loadu_of_le a (0 + 8 * k) (by omega), loadu_of_le b (0 + 8 * k) (by omega)]
    simp only [Nat.zero_add, lane_sums, sum_range_succ, bind, Except.bind, pure, Except.pure,
      _mm256_fmadd_ps, _mm256_sub_ps, _mm256_cvtph_ps, l2sq_term]
    congr 2 <;> ring

theorem ip_closed (fuel : Nat) (a b : List α) (n : Nat)
    (ha : n ≤ a.length) (hb : n ≤ b.length) (hn : n + 8 < 2 ^ 64) (hf : n < fuel) :
    simsimd_avx2_f16_ip fuel a b n = .ok (∑ i in range n, ip_term a b i) := by
  unfold simsimd_avx2_f16_ip
  have hm : 8 * (n / 8) + n % 8 = n := Nat.div_add_mod n 8
  have hr : n % 8 < 8 := Nat.mod_lt n (by decide)
  rw [← lane_sums_zero (ip_term a b)]
  dsimp only
  rw [chunk_loop_spec n _ (n / 8) (lane_sums (ip_term a b)) 0 fuel ?_
    (by omega) (by omega) (by omega) (by omega)]
  · simp only [Nat.zero_add]
    have := tail_loop_spec n (fun i result => do
      pure (result + (← read a i) * (← read b i)))
      (n % 8) (fun k => ∑ i in range (8 * (n / 8) + k), ip_term a b i) (8 * (n / 8)) fuel
      ?_ (by omega) (by omega) (by omega)
    · simp only [Nat.add_zero, hm] at this
      rw [← reduce_lane_sums] at this
      exact this
    · intro k hk
      dsimp only
      rw [read_of_lt a (8 * (n / 8) + k) (by omega), read_of_lt b (8 * (n / 8) + k) (by omega)]
      simp only [← Nat.add_assoc, sum_range_succ]
      rfl
  · intro k hk
    dsimp only
    rw [loadu_of_le a (0 + 8 * k) (by omega), loadu_of_le b (0 + 8 * k) (by omega)]
    simp only [Nat.zero_add, lane_sums, sum_range_succ, bind, Except.bind, pure, Except.pure,
      _mm256_fmadd_ps, _mm256_cvtph_ps, ip_term]
    congr 2 <;> ring

theorem cos_closed (rsqrt : α → α) (fuel : Nat) (a b : List α) (n : Nat)
    (ha : n ≤ a.length) (hb : n ≤ b.length) (hn : n + 8 < 2 ^ 64) (hf : n < fuel) :
    simsimd_avx2_f16_cos rsqrt fuel a b n =
      .ok ((∑ i in range n, ip_term a b i) *
        rsqrt ((∑ i in range n, ip_term a a i) * (∑ i in range n, ip_term b b i))) := by
  unfold simsimd_avx2_f16_cos
  have hm : 8 * (n / 8) + n % 8 = n := Nat.div_add_mod n 8
  have hr : n % 8 < 8 := Nat.mod_lt n (by decide)
  dsimp only
  have hc := chunk_loop_spec n (fun i (x : M256 α × M256 α × M256 α) =>
      match x with
      | (ab_vec, a2_vec, b2_vec) => do
        let a_vec := _mm256_cvtph_ps (← _mm_loadu_si128 a i)
        let b_vec := _mm256_cvtph_ps (← _mm_loadu_si128 b i)
        let ab_vec := _mm256_fmadd_ps a_vec b_vec ab_vec
        let a2_vec := _mm256_fmadd_ps a_vec a_vec a2_vec
        let b2_vec := _mm256_fmadd_ps b_vec b_vec b2_vec
        pure (ab_vec, a2_vec, b2_vec)) (n / 8)
    (fun k => (lane_sums (ip_term a b) k, lane_sums (ip_term a a) k, lane_sums (ip_term b b) k))
    0 fuel ?_ (by omega) (by omega) (by omega) (by omega)
  · simp only [lane_sums_zero, Nat.zero_add] at hc
    rw [hc]
    have ht := tail_loop_spec n (fun i (x : α × α × α) =>
        match x with
        | (result0, result1, result2) => do
          let result0 := result0 + (← read a i) * (← read b i)
          let result1 := result1 + (← read a i) * (← read a i)
          let result2 := result2 + (← read b i) * (← read b i)
          pure (result0, result1, result2))
      (n % 8) (fun k => (∑ i in range (8 * (n / 8) + k), ip_term a b i,
        ∑ i in range (8 * (n / 8) + k), ip_term a a i,
        ∑ i in range (8 * (n / 8) + k), ip_term b b i)) (8 * (n / 8)) fuel
      ?_ (by omega) (by omega) (by omega)
    · simp only [Nat.add_zero, hm] at ht
      simp only [← reduce_lane_sums] at ht
      simp only [reduce_lanes] at ht
      rw [ok_bind]
      dsimp only
      rw [ht]
      rfl
    · intro k hk
      dsimp only
      rw [read_of_lt a (8 * (n / 8) + k) (by omega), read_of_lt b (8 * (n / 8) + k) (by omega)]
      simp only [← Nat.add_assoc, sum_range_succ]
      rfl
  · intro k hk
    dsimp only
    rw [loadu_of_le a (0 + 8 * k) (by omega), loadu_of_le b (0 + 8 * k) (by omega)]
    simp only [Nat.zero_add, lane_sums, sum_range_succ, bind, Except.bind, pure, Except.pure,
      _mm256_fmadd_ps, _mm256_cvtph_ps, ip_term]
    congr 2
    · congr 1 <;> ring
    · congr 1
      · congr 1 <;> ring
      · congr 1 <;> ring

end KernelLemmas

section RealLemmas

open Finset

theorem sum_sq_pos (a : List ℝ) (n : Nat) (h : ∃ i, i < n ∧ a.getD i 0 ≠ 0) :
    0 < ∑ i in range n, a.getD i 0 * a.getD i 0 := by
  obtain ⟨i, hi, hne⟩ := h
  have h1 : 0 < a.getD i 0 * a.getD i 0 := mul_self_pos.mpr hne
  have h2 : a.getD i 0 * a.getD i 0 ≤ ∑ j in range n, a.getD j 0 * a.getD j 0 :=
    single_le_sum (f := fun j => a.getD j 0 * a.getD j 0) (fun j _ => mul_self_nonneg _)
      (mem_range.mpr hi)
  exact lt_of_lt_of_le h1 h2

theorem cos_closed_real (rsqrt : ℝ → ℝ) (fuel : Nat) (a b : List ℝ) (n : Nat)
    (ha : n ≤ a.length) (hb : n ≤ b.length) (hn : n + 8 < 2 ^ 64) (hf : n < fuel) :
    simsimd_avx2_f16_cos rsqrt fuel a b n =
      .ok ((∑ i in range n, a.getD i 0 * b.getD i 0) *
        rsqrt ((∑ i in range n, a.getD i 0 * a.getD i 0) *
          (∑ i in range n, b.getD i 0 * b.getD i 0))) :=
  cos_closed rsqrt fuel a b n ha hb hn hf

end RealLemmas

section Symmetry

variable {α : Type}

theorem read_cases (p : List α) (i : Nat) :
    (∃ x, read p i = .ok x) ∨ read p i = .error .out_of_bounds := by
  unfold read
  cases p.get? i with
  | some x => exact Or.inl ⟨x, rfl⟩
  | none => exact Or.inr rfl

theorem loadu_cases (p : List α) (i : Nat) :
    (∃ v, _mm_loadu_si128 p i = .ok v) ∨ _mm_loadu_si128 p i = .error .out_of_bounds := by
  unfold _mm_loadu_si128
  rcases read_cases p i with ⟨x0, h0⟩ | h0 <;> rw [h0]
  · rcases read_cases p (i + 1) with ⟨x1, h1⟩ | h1 <;> rw [ok_bind, h1]
    · rcases read_cases p (i + 2) with ⟨x2, h2⟩ | h2 <;> rw [ok_bind, h2]
      · rcases read_cases p (i + 3) with ⟨x3, h3⟩ | h3 <;> rw [ok_bind, h3]
        · rcases read_cases p (i + 4) with ⟨x4, h4⟩ | h4 <;> rw [ok_bind, h4]
          · rcases read_cases p (i + 5) with ⟨x5, h5⟩ | h5 <;> rw [ok_bind, h5]
            · rcases read_cases p (i + 6) with ⟨x6, h6⟩ | h6 <;> rw [ok_bind, h6]
              · rcases read_cases p (i + 7) with ⟨x7, h7⟩ | h7 <;> rw [ok_bind, h7]
                · exact Or.inl ⟨_, rfl⟩
                · exact Or.inr rfl
              · exact Or.inr rfl
            · exact Or.inr rfl
          · exact Or.inr rfl
        · exact Or.inr rfl
      · exact Or.inr rfl
    · exact Or.inr rfl
  · exact Or.inr rfl

variable [CommRing α]

theorem l2sq_chunk_body_symm (a b : List α) :
    (fun i (d2_vec : M256 α) => (do
      let a_vec := _mm256_cvtph_ps (← _mm_loadu_si128 a i)
      let b_vec := _mm256_cvtph_ps (← _mm_loadu_si128 b i)
      let d_vec := _mm256_sub_ps a_vec b_vec
      pure (_mm256_fmadd_ps d_vec d_vec d2_vec) : Except Fault (M256 α))) =
    (fun i (d2_vec : M256 α) => (do
      let a_vec := _mm256_cvtph_ps (← _mm_loadu_si128 b i)
      let b_vec := _mm256_cvtph_ps (← _mm_loadu_si128 a i)
      let d_vec := _mm256_sub_ps a_vec b_vec
      pure (_mm256_fmadd_ps d_vec d_vec d2_vec) : Except Fault (M256 α))) := by
  funext i s
  rcases loadu_cases a i with ⟨x, hx⟩ | hx <;> rcases loadu_cases b i with ⟨y, hy⟩ | hy <;>
    rw [hx, hy]
  · simp only [ok_bind, pure, Except.pure, _mm256_fmadd_ps, _mm256_sub_ps]
    congr 2 <;> ring
  · rfl
  · rfl

theorem l2sq_tail_body_symm (a b : List α) :
    (fun i (result : α) => (do
      pure (result + ((← read a i) - (← read b i)) * ((← read a i) - (← read b i))) :
        Except Fault α)) =
    (fun i (result : α) => (do
      pure (result + ((← read b i) - (← read a i)) * ((← read b i) - (← read a i))) :
        Except Fault α)) := by
  funext i s
  rcases read_cases a i with ⟨x, hx⟩ | hx <;> rcases read_cases b i with ⟨y, hy⟩ | hy <;>
    rw [hx, hy]
  · simp only [ok_bind, pure, Except.pure]
    congr 1
    ring
  · rfl
  · rfl

end Symmetry

section IterLemmas

variable {α : Type} [CommRing α]

theorem l2sq_chunk_loop_eq (fuel : Nat) (a b : List α) (n : Nat) :
    simsimd_avx2_f16_l2sq fuel a b n =
      (chunk_loop n (l2sq_chunk_body a b) fuel 0 (_mm256_set1_ps 0) >>= fun r =>
        tail_loop n (l2sq_tail_body a b) fuel r.1 (reduce_lanes r.2)) := rfl

theorem ip_chunk_loop_eq (fuel : Nat) (a b : List α) (n : Nat) :
    simsimd_avx2_f16_ip fuel a b n =
      (chunk_loop n (ip_chunk_body a b) fuel 0 (_mm256_set1_ps 0) >>= fun r =>
        tail_loop n (ip_tail_body a b) fuel r.1 (reduce_lanes r.2)) := rfl

theorem cos_chunk_loop_eq (rsqrt : α → α) (fuel : Nat) (a b : List α) (n : Nat) :
    simsimd_avx2_f16_cos rsqrt fuel a b n =
      (chunk_loop n (cos_chunk_body a b) fuel 0
          (_mm256_set1_ps 0, _mm256_set1_ps 0, _mm256_set1_ps 0) >>= fun r =>
        tail_loop n (cos_tail_body a b)
          fuel r.1 (reduce_lanes r.2.1, reduce_lanes r.2.2.1, reduce_lanes r.2.2.2) >>= fun t =>
        pure (t.1 * rsqrt (t.2.1 * t.2.2))) := rfl

theorem error_bind {β γ : Type} (e : Fault) (f : β → Except Fault γ) :
    (Except.error e >>= f) = Except.error e := rfl

theorem cos_chunk_body_lanes (a b : List α) (c : Nat) (ha : 8 * c + 8 ≤ a.length)
    (hb : 8 * c + 8 ≤ b.length) :
    cos_chunk_body a b (8 * c)
        (lane_sums (ip_term a b) c, lane_sums (ip_term a a) c, lane_sums (ip_term b b) c) =
      .ok (lane_sums (ip_term a b) (c + 1), lane_sums (ip_term a a) (c + 1),
        lane_sums (ip_term b b) (c + 1)) := by
  unfold cos_chunk_body
  dsimp only
  rw [loadu_of_le a (8 * c) ha, loadu_of_le b (8 * c) hb]
  simp only [lane_sums, Finset.sum_range_succ, bind, Except.bind, pure, Except.pure,
    _mm256_fmadd_ps, _mm256_cvtph_ps, ip_term]
  congr 2
  · congr 1 <;> ring
  · congr 1
    · congr 1 <;> ring
    · congr 1 <;> ring

variable {σ : Type}

theorem chunk_loop_size_max (body : Nat → σ → Except Fault σ) :
    ∀ (fuel i : Nat) (s : σ), ∃ e, chunk_loop (2 ^ 64 - 1) body fuel i s = .error e := by
  intro fuel
  induction fuel with
  | zero => intro i s; exact ⟨_, rfl⟩
  | succ fuel ih =>
    intro i s
    have hc : size_wrap (i + 8) ≤ 2 ^ 64 - 1 := by
      have : (i + 8) % 2 ^ 64 < 2 ^ 64 := Nat.mod_lt _ (by decide)
      unfold size_wrap
      omega
    simp only [chunk_loop, hc, if_true]
    cases body i s with
    | ok s1 => exact ih _ s1
    | error e => exact ⟨e, rfl⟩

theorem chunk_loop_size_max_count :
    ∀ (fuel i c : Nat),
      chunk_loop (2 ^ 64 - 1) (fun _ (c : Nat) => (pure (c + 1) : Except Fault Nat)) fuel i c =
        .error .out_of_fuel := by
  intro fuel
  induction fuel with
  | zero => intro i c; rfl
  | succ fuel ih =>
    intro i c
    have hc : size_wrap (i + 8) ≤ 2 ^ 64 - 1 := by
      have : (i + 8) % 2 ^ 64 < 2 ^ 64 := Nat.mod_lt _ (by decide)
      unfold size_wrap
      omega
    simp only [chunk_loop, hc, if_true]
    exact ih _ _

theorem loop_counts_closed (fuel n : Nat) (hn : n + 8 < 2 ^ 64) (hf : n < fuel) :
    loop_counts fuel n = .ok (n / 8, 8 * (n / 8), n % 8) := by
  unfold loop_counts
  have hm : 8 * (n / 8) + n % 8 = n := Nat.div_add_mod n 8
  have hr : n % 8 < 8 := Nat.mod_lt n (by decide)
  have hc := chunk_loop_spec n (fun _ (c : Nat) => (pure (c + 1) : Except Fault Nat)) (n / 8)
    (fun k => k) 0 fuel (fun k _ => rfl) (by omega) (by omega) (by omega) (by omega)
  simp only [Nat.zero_add] at hc
  rw [hc, ok_bind]
  dsimp only
  have ht := tail_loop_spec n (fun _ (c : Nat) => (pure (c + 1) : Except Fault Nat)) (n % 8)
    (fun k => k) (8 * (n / 8)) fuel (fun k _ => rfl) (by omega) (by omega) (by omega)
  rw [ht]
  rfl

end IterLemmas

section SymmLemmas

variable {σ τ : Type}

theorem chunk_loop_map (n : Nat) (φ : σ → τ) (f : Nat → σ → Except Fault σ)
    (g : Nat → τ → Except Fault τ) (h : ∀ i s, g i (φ s) = (f i s).map φ) :
    ∀ (fuel i : Nat) (s : σ),
      chunk_loop n g fuel i (φ s) = (chunk_loop n f fuel i s).map (fun p => (p.1, φ p.2)) := by
  intro fuel
  induction fuel with
  | zero => intro i s; rfl
  | succ fuel ih =>
    intro i s
    simp only [chunk_loop]
    by_cases hc : size_wrap (i + 8) ≤ n
    · simp only [hc, if_true, h]
      cases f i s with
      | ok s1 => exact ih _ s1
      | error e => rfl
    · simp only [hc, if_false]
      rfl

theorem tail_loop_map (n : Nat) (φ : σ → τ) (f : Nat → σ → Except Fault σ)
    (g : Nat → τ → Except Fault τ) (h : ∀ i s, g i (φ s) = (f i s).map φ) :
    ∀ (fuel i : Nat) (s : σ),
      tail_loop n g fuel i (φ s) = (tail_loop n f fuel i s).map φ := by
  intro fuel
  induction fuel with
  | zero => intro i s; rfl
  | succ fuel ih =>
    intro i s
    simp only [tail_loop]
    by_cases hc : i < n
    · simp only [hc, if_true, h]
      cases f i s with
      | ok s1 => exact ih _ s1
      | error e => rfl
    · simp only [hc, if_false]
      rfl

variable {α : Type} [CommRing α]

theorem ip_chunk_body_symm (a b : List α) : ip_chunk_body a b = ip_chunk_body b a := by
  funext i s
  unfold ip_chunk_body
  rcases loadu_cases a i with ⟨x, hx⟩ | hx <;> rcases loadu_cases b i with ⟨y, hy⟩ | hy <;>
    rw [hx, hy]
  · simp only [ok_bind, pure, Except.pure, _mm256_fmadd_ps]
    congr 2 <;> ring
  · rfl
  · rfl

theorem ip_tail_body_symm (a b : List α) : ip_tail_body a b = ip_tail_body b a := by
  funext i s
  unfold ip_tail_body
  rcases read_cases a i with ⟨x, hx⟩ | hx <;> rcases read_cases b i with ⟨y, hy⟩ | hy <;>
    rw [hx, hy]
  · simp only [ok_bind, pure, Except.pure]
    congr 1
    ring
  · rfl
  · rfl

/-- Exchange of the two squared-norm components of a triple. -/
theorem cos_chunk_body_swap (a b : List α) (i : Nat) (s : M256 α × M256 α × M256 α) :
    cos_chunk_body b a i (s.1, s.2.2, s.2.1) =
      (cos_chunk_body a b i s).map (fun t => (t.1, t.2.2, t.2.1)) := by
  obtain ⟨s0, s1, s2⟩ := s
  unfold cos_chunk_body
  dsimp only
  rcases loadu_cases a i with ⟨x, hx⟩ | hx <;> rcases loadu_cases b i with ⟨y, hy⟩ | hy <;>
    rw [hx, hy]
  · simp only [ok_bind, pure, Except.pure, Except.map, _mm256_fmadd_ps]
    congr 2
    congr 1 <;> ring
  · rfl
  · rfl
  · rfl

theorem cos_tail_body_swap (a b : List α) (i : Nat) (s : α × α × α) :
    cos_tail_body b a i (s.1, s.2.2, s.2.1) =
      (cos_tail_body a b i s).map (fun t => (t.1, t.2.2, t.2.1)) := by
  obtain ⟨s0, s1, s2⟩ := s
  unfold cos_tail_body
  dsimp only
  rcases read_cases a i with ⟨x, hx⟩ | hx <;> rcases read_cases b i with ⟨y, hy⟩ | hy <;>
    rw [hx, hy]
  · simp only [ok_bind, pure, Except.pure, Except.map]
    congr 2
    ring
  · rfl
  · rfl
  · rfl

theorem ip_symm_aux (fuel : Nat) (a b : List α) (n : Nat) :
    simsimd_avx2_f16_ip fuel a b n = simsimd_avx2_f16_ip fuel b a n := by
  rw [ip_chunk_loop_eq, ip_chunk_loop_eq, ip_chunk_body_symm a b, ip_tail_body_symm a b]

theorem cos_symm_aux (rsqrt : α → α) (fuel : Nat) (a b : List α) (n : Nat) :
    simsimd_avx2_f16_cos rsqrt fuel a b n = simsimd_avx2_f16_cos rsqrt fuel b a n := by
  rw [cos_chunk_loop_eq, cos_chunk_loop_eq]
  have hc := chunk_loop_map n (fun t : M256 α × M256 α × M256 α => (t.1, t.2.2, t.2.1))
    (cos_chunk_body a b) (cos_chunk_body b a) (cos_chunk_body_swap a b) fuel 0
    (_mm256_set1_ps 0, _mm256_set1_ps 0, _mm256_set1_ps 0)
  dsimp only at hc
  rw [hc]
  cases chunk_loop n (cos_chunk_body a b) fuel 0
      (_mm256_set1_ps 0, _mm256_set1_ps 0, _mm256_set1_ps 0) with
  | error e => rfl
  | ok r =>
    obtain ⟨i, v0, v1, v2⟩ := r
    simp only [Except.map, ok_bind]
    have ht := tail_loop_map n (fun t : α × α × α => (t.1, t.2.2, t.2.1))
      (cos_tail_body a b) (cos_tail_body b a) (cos_tail_body_swap a b) fuel i
      (reduce_lanes v0, reduce_lanes v1, reduce_lanes v2)
    dsimp only at ht
    rw [ht]
    cases tail_loop n (cos_tail_body a b) fuel i
        (reduce_lanes v0, reduce_lanes v1, reduce_lanes v2) with
    | error e => rfl
    | ok t =>
      obtain ⟨t0, t1, t2⟩ := t
      simp only [Except.map, ok_bind, pure, Except.pure]
      rw [mul_comm t2 t1]

end SymmLemmas

section WrapLemmas

theorem chunk_loop_wrap_count (n : Nat) (h1 : 2 ^ 64 ≤ n + 8) (h2 : n < 2 ^ 64) :
    ∀ (fuel i c : Nat), i % 8 = 0 → i < 2 ^ 64 →
      chunk_loop n (fun _ (c : Nat) => (pure (c + 1) : Except Fault Nat)) fuel i c =
        .error .out_of_fuel := by
  intro fuel
  induction fuel with
  | zero => intro i c _ _; rfl
  | succ fuel ih =>
    intro i c h8 hi
    have hc : size_wrap (i + 8) ≤ n := by
      unfold size_wrap
      omega
    have hm : size_wrap (i + 8) % 8 = 0 := by
      unfold size_wrap
      omega
    have hl : size_wrap (i + 8) < 2 ^ 64 := Nat.mod_lt _ (by decide)
    simp only [chunk_loop, hc, if_true]
    exact ih _ _ hm hl

theorem loop_counts_wrap (n : Nat) (h1 : 2 ^ 64 ≤ n + 8) (h2 : n < 2 ^ 64) (fuel : Nat) :
    loop_counts fuel n = .error .out_of_fuel := by
  unfold loop_counts
  rw [chunk_loop_wrap_count n h1 h2 fuel 0 0 rfl (by decide)]
  rfl

end WrapLemmas
section HomLemmas

variable {α β : Type}

theorem read_map (φ : α → β) (p : List α) (i : Nat) :
    read (p.map φ) i = (read p i).map φ := by
  unfold read
  rw [List.get?_eq_getElem?, List.get?_eq_getElem?, List.getElem?_map]
  cases p[i]? <;> rfl

theorem loadu_map (φ : α → β) (p : List α) (i : Nat) :
    _mm_loadu_si128 (p.map φ) i = (_mm_loadu_si128 p i).map (M128i.map φ) := by
  unfold _mm_loadu_si128
  simp only [read_map]
  cases read p i <;> try rfl
  cases read p (i + 1) <;> try rfl
  cases read p (i + 2) <;> try rfl
  cases read p (i + 3) <;> try rfl
  cases read p (i + 4) <;> try rfl
  cases read p (i + 5) <;> try rfl
  cases read p (i + 6) <;> try rfl
  cases read p (i + 7) <;> rfl

theorem reduce_lanes_map [Zero α] [Add α] [Zero β] [Add β] (φ : α → β)
    (hadd : ∀ x y, φ (x + y) = φ x + φ y) (v : M256 α) :
    reduce_lanes (M256.map φ v) = φ (reduce_lanes v) := by
  simp [reduce_lanes, M256.map, _mm256_add_ps, _mm256_permute2f128_ps, _mm256_hadd_ps,
    _mm_store_ss, _mm256_castps256_ps128, select4, hadd]

theorem set1_zero_map [Zero α] [Zero β] (φ : α → β) (h0 : φ 0 = 0) :
    M256.map φ (_mm256_set1_ps (0 : α)) = _mm256_set1_ps 0 := by
  simp [M256.map, _mm256_set1_ps, h0]

theorem l2sq_chunk_body_map [Add α] [Sub α] [Mul α] [Add β] [Sub β] [Mul β] (φ : α → β)
    (hadd : ∀ x y, φ (x + y) = φ x + φ y) (hsub : ∀ x y, φ (x - y) = φ x - φ y)
    (hmul : ∀ x y, φ (x * y) = φ x * φ y) (a b : List α) (i : Nat) (s : M256 α) :
    l2sq_chunk_body (a.map φ) (b.map φ) i (M256.map φ s) =
      (l2sq_chunk_body a b i s).map (M256.map φ) := by
  unfold l2sq_chunk_body
  rw [loadu_map, loadu_map]
  cases _mm_loadu_si128 a i with
  | error e => rfl
  | ok x =>
    cases _mm_loadu_si128 b i with
    | error e => rfl
    | ok y =>
      simp [Except.map, bind, Except.bind, pure, Except.pure, M256.map, M128i.map,
        _mm256_fmadd_ps, _mm256_sub_ps, _mm256_cvtph_ps, hadd, hsub, hmul]

theorem l2sq_tail_body_map [Add α] [Sub α] [Mul α] [Add β] [Sub β] [Mul β] (φ : α → β)
    (hadd : ∀ x y, φ (x + y) = φ x + φ y) (hsub : ∀ x y, φ (x - y) = φ x - φ y)
    (hmul : ∀ x y, φ (x * y) = φ x * φ y) (a b : List α) (i : Nat) (s : α) :
    l2sq_tail_body (a.map φ) (b.map φ) i (φ s) = (l2sq_tail_body a b i s).map φ := by
  unfold l2sq_tail_body
  simp only [read_map]
  cases read a i with
  | error e => rfl
  | ok x =>
    cases read b i with
    | error e => rfl
    | ok y =>
      simp [Except.map, bind, Except.bind, pure, Except.pure, hadd, hsub, hmul]

theorem l2sq_loops_eq [Zero α] [Add α] [Sub α] [Mul α] (fuel : Nat) (a b : List α) (n : Nat) :
    simsimd_avx2_f16_l2sq fuel a b n =
      (chunk_loop n (l2sq_chunk_body a b) fuel 0 (_mm256_set1_ps 0) >>= fun r =>
        tail_loop n (l2sq_tail_body a b) fuel r.1 (reduce_lanes r.2)) := rfl

theorem l2sq_map [Zero α] [Add α] [Sub α] [Mul α] [Zero β] [Add β] [Sub β] [Mul β]
    (φ : α → β) (h0 : φ 0 = 0) (hadd : ∀ x y, φ (x + y) = φ x + φ y)
    (hsub : ∀ x y, φ (x - y) = φ x - φ y) (hmul : ∀ x y, φ (x * y) = φ x * φ y)
    (fuel : Nat) (a b : List α) (n : Nat) :
    simsimd_avx2_f16_l2sq fuel (a.map φ) (b.map φ) n =
      (simsimd_avx2_f16_l2sq fuel a b n).map φ := by
  rw [l2sq_loops_eq, l2sq_loops_eq]
  have hc := chunk_loop_map n (M256.map φ) (l2sq_chunk_body a b)
    (l2sq_chunk_body (a.map φ) (b.map φ)) (l2sq_chunk_body_map φ hadd hsub hmul a b) fuel 0
    (_mm256_set1_ps 0)
  rw [set1_zero_map φ h0] at hc
  rw [hc]
  cases chunk_loop n (l2sq_chunk_body a b) fuel 0 (_mm256_set1_ps 0) with
  | error e => rfl
  | ok r =>
    simp only [Except.map, ok_bind]
    rw [reduce_lanes_map φ hadd,
      tail_loop_map n φ (l2sq_tail_body a b) (l2sq_tail_body (a.map φ) (b.map φ))
        (l2sq_tail_body_map φ hadd hsub hmul a b)]
    cases tail_loop n (l2sq_tail_body a b) fuel r.1 (reduce_lanes r.2) <;> rfl

end HomLemmas
section TracedLemmas

variable {α : Type}

theorem read_traced_fst (op : Operand) (p : List α) (i : Nat) (log : ReadLog) :
    (read_traced op p i log).map Prod.fst = read p i := by
  unfold read_traced
  cases read p i <;> rfl

theorem read_traced_cases (op : Operand) (p : List α) (i : Nat) (log : ReadLog) :
    (∃ x, read p i = .ok x ∧ read_traced op p i log = .ok (x, log.record op i)) ∨
    (read p i = .error .out_of_bounds ∧ read_traced op p i log = .error .out_of_bounds) := by
  unfold read_traced
  rcases read_cases p i with ⟨x, hx⟩ | hx <;> rw [hx]
  · exact Or.inl ⟨x, rfl, rfl⟩
  · exact Or.inr ⟨rfl, rfl⟩

theorem loadu_traced_fst (op : Operand) (p : List α) (i : Nat) (log : ReadLog) :
    (_mm_loadu_si128_traced op p i log).map Prod.fst = _mm_loadu_si128 p i := by
  unfold _mm_loadu_si128_traced _mm_loadu_si128
  rcases read_traced_cases op p i log with ⟨x0, h0, t0⟩ | ⟨h0, t0⟩ <;> rw [h0, t0] <;>
    try rfl
  simp only [ok_bind]
  rcases read_traced_cases op p (i + 1) (log.record op i) with ⟨x1, h1, t1⟩ | ⟨h1, t1⟩ <;>
    rw [h1, t1] <;> try rfl
  simp only [ok_bind]
  rcases read_traced_cases op p (i + 2) ((log.record op i).record op (i + 1)) with
    ⟨x2, h2, t2⟩ | ⟨h2, t2⟩ <;> rw [h2, t2] <;> try rfl
  simp only [ok_bind]
  rcases read_traced_cases op p (i + 3)
    (((log.record op i).record op (i + 1)).record op (i + 2)) with
    ⟨x3, h3, t3⟩ | ⟨h3, t3⟩ <;> rw [h3, t3] <;> try rfl
  simp only [ok_bind]
  rcases read_traced_cases op p (i + 4)
    ((((log.record op i).record op (i + 1)).record op (i + 2)).record op (i + 3)) with
    ⟨x4, h4, t4⟩ | ⟨h4, t4⟩ <;> rw [h4, t4] <;> try rfl
  simp only [ok_bind]
  rcases read_traced_cases op p (i + 5)
    (((((log.record op i).record op (i + 1)).record op (i + 2)).record op (i + 3)).record op
      (i + 4)) with
    ⟨x5, h5, t5⟩ | ⟨h5, t5⟩ <;> rw [h5, t5] <;> try rfl
  simp only [ok_bind]
  rcases read_traced_cases op p (i + 6)
    ((((((log.record op i).record op (i + 1)).record op (i + 2)).record op (i + 3)).record op
      (i + 4)).record op (i + 5)) with
    ⟨x6, h6, t6⟩ | ⟨h6, t6⟩ <;> rw [h6, t6] <;> try rfl
  simp only [ok_bind]
  rcases read_traced_cases op p (i + 7)
    (((((((log.record op i).record op (i + 1)).record op (i + 2)).record op (i + 3)).record op
      (i + 4)).record op (i + 5)).record op (i + 6)) with
    ⟨x7, h7, t7⟩ | ⟨h7, t7⟩ <;> rw [h7, t7] <;> rfl

end TracedLemmas
section Erasure

variable {α : Type}

theorem loadu_traced_cases (op : Operand) (p : List α) (i : Nat) (log : ReadLog) :
    (∃ x l, _mm_loadu_si128_traced op p i log = .ok (x, l) ∧ _mm_loadu_si128 p i = .ok x) ∨
    (∃ e, _mm_loadu_si128_traced op p i log = .error e ∧ _mm_loadu_si128 p i = .error e) := by
  have h := loadu_traced_fst op p i log
  cases ht : _mm_loadu_si128_traced op p i log with
  | error e =>
    rw [ht] at h
    exact Or.inr ⟨e, rfl, h.symm⟩
  | ok r =>
    rw [ht] at h
    exact Or.inl ⟨r.1, r.2, rfl, h.symm⟩

theorem read_traced_cases2 (op : Operand) (p : List α) (i : Nat) (log : ReadLog) :
    (∃ x, read_traced op p i log = .ok (x, log.record op i) ∧ read p i = .ok x) ∨
    (∃ e, read_traced op p i log = .error e ∧ read p i = .error e) := by
  rcases read_traced_cases op p i log with ⟨x, h1, h2⟩ | ⟨h1, h2⟩
  · exact Or.inl ⟨x, h2, h1⟩
  · exact Or.inr ⟨_, h2, h1⟩

theorem l2sq_chunk_body_erase [Add α] [Sub α] [Mul α] (a b : List α) (i : Nat)
    (s : M256 α × ReadLog) :
    l2sq_chunk_body a b i s.1 = (l2sq_chunk_body_traced a b i s).map Prod.fst := by
  obtain ⟨v, log⟩ := s
  unfold l2sq_chunk_body l2sq_chunk_body_traced
  dsimp only
  rcases loadu_traced_cases .a a i log with ⟨x, l, ht, hu⟩ | ⟨e, ht, hu⟩ <;> rw [ht, hu]
  · simp only [ok_bind]
    rcases loadu_traced_cases .b b i l with ⟨y, l2, ht2, hu2⟩ | ⟨e, ht2, hu2⟩ <;>
      rw [ht2, hu2] <;> rfl
  · rfl

theorem l2sq_tail_body_erase [Add α] [Sub α] [Mul α] (a b : List α) (i : Nat)
    (s : α × ReadLog) :
    l2sq_tail_body a b i s.1 = (l2sq_tail_body_traced a b i s).map Prod.fst := by
  obtain ⟨v, log⟩ := s
  unfold l2sq_tail_body l2sq_tail_body_traced
  dsimp only
  rcases read_traced_cases2 .a a i log with ⟨x, ht, hu⟩ | ⟨e, ht, hu⟩ <;> rw [ht, hu]
  · simp only [ok_bind]
    rcases read_traced_cases2 .b b i (log.record .a i) with ⟨y, ht2, hu2⟩ | ⟨e, ht2, hu2⟩ <;>
      rw [ht2, hu2]
    · simp only [ok_bind]
      rcases read_traced_cases2 .a a i ((log.record .a i).record .b i) with
        ⟨x2, ht3, hu3⟩ | ⟨e, ht3, hu3⟩
      · rw [hu] at hu3
        cases hu3
        rw [ht3]
        simp only [ok_bind]
        rcases read_traced_cases2 .b b i (((log.record .a i).record .b i).record .a i) with
          ⟨y2, ht4, hu4⟩ | ⟨e, ht4, hu4⟩
        · rw [hu2] at hu4
          cases hu4
          rw [ht4]
          rfl
        · rw [hu2] at hu4
          cases hu4
      · rw [hu] at hu3
        cases hu3
    · rfl
  · rfl

theorem l2sq_traced_loops_eq [Zero α] [Add α] [Sub α] [Mul α] (fuel : Nat) (a b : List α)
    (n : Nat) :
    simsimd_avx2_f16_l2sq_traced fuel a b n =
      (chunk_loop n (l2sq_chunk_body_traced a b) fuel 0 (_mm256_set1_ps 0, ⟨[], []⟩) >>= fun r =>
        tail_loop n (l2sq_tail_body_traced a b) fuel r.1 (reduce_lanes r.2.1, ⟨[], []⟩) >>=
          fun t => pure (t.1, r.2.2, t.2)) := rfl

theorem l2sq_traced_erase [Zero α] [Add α] [Sub α] [Mul α] (fuel : Nat) (a b : List α)
    (n : Nat) :
    (simsimd_avx2_f16_l2sq_traced fuel a b n).map Prod.fst =
      simsimd_avx2_f16_l2sq fuel a b n := by
  rw [l2sq_traced_loops_eq, l2sq_loops_eq]
  have hc := chunk_loop_map n Prod.fst (l2sq_chunk_body_traced a b) (l2sq_chunk_body a b)
    (fun i s => l2sq_chunk_body_erase a b i s) fuel 0 (_mm256_set1_ps 0, ⟨[], []⟩)
  dsimp only at hc
  rw [hc]
  cases chunk_loop n (l2sq_chunk_body_traced a b) fuel 0 (_mm256_set1_ps 0, ⟨[], []⟩) with
  | error e => rfl
  | ok r =>
    simp only [Except.map, ok_bind]
    have ht := tail_loop_map n Prod.fst (l2sq_tail_body_traced a b) (l2sq_tail_body a b)
      (fun i s => l2sq_tail_body_erase a b i s) fuel r.1 (reduce_lanes r.2.1, ⟨[], []⟩)
    dsimp only at ht
    rw [ht]
    cases tail_loop n (l2sq_tail_body_traced a b) fuel r.1 (reduce_lanes r.2.1, ⟨[], []⟩) <;>
      rfl

end Erasure
section Erasure2

variable {α : Type}

theorem read_traced_ok (op : Operand) (p : List α) (i : Nat) (log : ReadLog) (x : α)
    (h : read p i = .ok x) : read_traced op p i log = .ok (x, log.record op i) := by
  unfold read_traced
  rw [h]
  rfl

theorem read_traced_error (op : Operand) (p : List α) (i : Nat) (log : ReadLog) (e : Fault)
    (h : read p i = .error e) : read_traced op p i log = .error e := by
  unfold read_traced
  rw [h]
  rfl

theorem ip_chunk_body_erase [Add α] [Mul α] (a b : List α) (i : Nat)
    (s : M256 α × ReadLog) :
    ip_chunk_body a b i s.1 = (ip_chunk_body_traced a b i s).map Prod.fst := by
  obtain ⟨v, log⟩ := s
  unfold ip_chunk_body ip_chunk_body_traced
  dsimp only
  rcases loadu_traced_cases .a a i log with ⟨x, l, ht, hu⟩ | ⟨e, ht, hu⟩ <;> rw [ht, hu]
  · simp only [ok_bind]
    rcases loadu_traced_cases .b b i l with ⟨y, l2, ht2, hu2⟩ | ⟨e, ht2, hu2⟩ <;>
      rw [ht2, hu2] <;> rfl
  · rfl

theorem ip_tail_body_erase [Add α] [Mul α] (a b : List α) (i : Nat) (s : α × ReadLog) :
    ip_tail_body a b i s.1 = (ip_tail_body_traced a b i s).map Prod.fst := by
  obtain ⟨v, log⟩ := s
  unfold ip_tail_body ip_tail_body_traced
  dsimp only
  rcases read_cases a i with ⟨x, hx⟩ | hx
  · rcases read_cases b i with ⟨y, hy⟩ | hy
    · simp only [hx, hy, read_traced_ok _ _ _ _ _ hx, read_traced_ok _ _ _ _ _ hy, ok_bind]
      rfl
    · simp only [hx, hy, read_traced_ok _ _ _ _ _ hx, read_traced_error _ _ _ _ _ hy, ok_bind]
      rfl
  · simp only [hx, read_traced_error _ _ _ _ _ hx]
    rfl

theorem ip_loops_eq [Zero α] [Add α] [Mul α] (fuel : Nat) (a b : List α) (n : Nat) :
    simsimd_avx2_f16_ip fuel a b n =
      (chunk_loop n (ip_chunk_body a b) fuel 0 (_mm256_set1_ps 0) >>= fun r =>
        tail_loop n (ip_tail_body a b) fuel r.1 (reduce_lanes r.2)) := rfl

theorem ip_traced_loops_eq [Zero α] [Add α] [Mul α] (fuel : Nat) (a b : List α) (n : Nat) :
    simsimd_avx2_f16_ip_traced fuel a b n =
      (chunk_loop n (ip_chunk_body_traced a b) fuel 0 (_mm256_set1_ps 0, ⟨[], []⟩) >>= fun r =>
        tail_loop n (ip_tail_body_traced a b) fuel r.1 (reduce_lanes r.2.1, ⟨[], []⟩) >>=
          fun t => pure (t.1, r.2.2, t.2)) := rfl

theorem ip_traced_erase [Zero α] [Add α] [Mul α] (fuel : Nat) (a b : List α) (n : Nat) :
    (simsimd_avx2_f16_ip_traced fuel a b n).map Prod.fst = simsimd_avx2_f16_ip fuel a b n := by
  rw [ip_traced_loops_eq, ip_loops_eq]
  have hc := chunk_loop_map n Prod.fst (ip_chunk_body_traced a b) (ip_chunk_body a b)
    (fun i s => ip_chunk_body_erase a b i s) fuel 0 (_mm256_set1_ps 0, ⟨[], []⟩)
  dsimp only at hc
  rw [hc]
  cases chunk_loop n (ip_chunk_body_traced a b) fuel 0 (_mm256_set1_ps 0, ⟨[], []⟩) with
  | error e => rfl
  | ok r =>
    simp only [Except.map, ok_bind]
    have ht := tail_loop_map n Prod.fst (ip_tail_body_traced a b) (ip_tail_body a b)
      (fun i s => ip_tail_body_erase a b i s) fuel r.1 (reduce_lanes r.2.1, ⟨[], []⟩)
    dsimp only at ht
    rw [ht]
    cases tail_loop n (ip_tail_body_traced a b) fuel r.1 (reduce_lanes r.2.1, ⟨[], []⟩) <;>
      rfl

theorem cos_chunk_body_erase [Add α] [Mul α] (a b : List α) (i : Nat)
    (s : (M256 α × M256 α × M256 α) × ReadLog) :
    cos_chunk_body a b i s.1 = (cos_chunk_body_traced a b i s).map Prod.fst := by
  obtain ⟨⟨v0, v1, v2⟩, log⟩ := s
  unfold cos_chunk_body cos_chunk_body_traced
  dsimp only
  rcases loadu_traced_cases .a a i log with ⟨x, l, ht, hu⟩ | ⟨e, ht, hu⟩ <;> rw [ht, hu]
  · simp only [ok_bind]
    rcases loadu_traced_cases .b b i l with ⟨y, l2, ht2, hu2⟩ | ⟨e, ht2, hu2⟩ <;>
      rw [ht2, hu2] <;> rfl
  · rfl

theorem cos_tail_body_erase [Add α] [Mul α] (a b : List α) (i : Nat)
    (s : (α × α × α) × ReadLog) :
    cos_tail_body a b i s.1 = (cos_tail_body_traced a b i s).map Prod.fst := by
  obtain ⟨⟨v0, v1, v2⟩, log⟩ := s
  unfold cos_tail_body cos_tail_body_traced
  dsimp only
  rcases read_cases a i with ⟨x, hx⟩ | hx
  · rcases read_cases b i with ⟨y, hy⟩ | hy
    · simp only [hx, hy, read_traced_ok _ _ _ _ _ hx, read_traced_ok _ _ _ _ _ hy, ok_bind]
      rfl
    · simp only [hx, hy, read_traced_ok _ _ _ _ _ hx, read_traced_error _ _ _ _ _ hy, ok_bind]
      rfl
  · simp only [hx, read_traced_error _ _ _ _ _ hx]
    rfl

theorem cos_loops_eq [Zero α] [Add α] [Mul α] (rsqrt : α → α) (fuel : Nat) (a b : List α)
    (n : Nat) :
    simsimd_avx2_f16_cos rsqrt fuel a b n =
      (cos_sums fuel a b n >>= fun t => pure (t.1 * rsqrt (t.2.1 * t.2.2))) := by
  have h : simsimd_avx2_f16_cos rsqrt fuel a b n =
      (chunk_loop n (cos_chunk_body a b) fuel 0
          (_mm256_set1_ps 0, _mm256_set1_ps 0, _mm256_set1_ps 0) >>= fun r =>
        tail_loop n (cos_tail_body a b) fuel r.1
          (reduce_lanes r.2.1, reduce_lanes r.2.2.1, reduce_lanes r.2.2.2) >>= fun t =>
        pure (t.1 * rsqrt (t.2.1 * t.2.2))) := rfl
  rw [h]
  unfold cos_sums
  cases chunk_loop n (cos_chunk_body a b) fuel 0
    (_mm256_set1_ps 0, _mm256_set1_ps 0, _mm256_set1_ps 0) <;> rfl

theorem cos_traced_loops_eq [Zero α] [Add α] [Mul α] (rsqrt : α → α) (fuel : Nat)
    (a b : List α) (n : Nat) :
    simsimd_avx2_f16_cos_traced rsqrt fuel a b n =
      (chunk_loop n (cos_chunk_body_traced a b) fuel 0
          ((_mm256_set1_ps 0, _mm256_set1_ps 0, _mm256_set1_ps 0), ⟨[], []⟩) >>= fun r =>
        tail_loop n (cos_tail_body_traced a b) fuel r.1
          ((reduce_lanes r.2.1.1, reduce_lanes r.2.1.2.1, reduce_lanes r.2.1.2.2), ⟨[], []⟩) >>=
          fun t => pure (t.1.1 * rsqrt (t.1.2.1 * t.1.2.2), r.2.2, t.2)) := rfl

theorem cos_traced_erase [Zero α] [Add α] [Mul α] (rsqrt : α → α) (fuel : Nat) (a b : List α)
    (n : Nat) :
    (simsimd_avx2_f16_cos_traced rsqrt fuel a b n).map Prod.fst =
      simsimd_avx2_f16_cos rsqrt fuel a b n := by
  rw [cos_traced_loops_eq, cos_loops_eq]
  unfold cos_sums
  have hc := chunk_loop_map n Prod.fst (cos_chunk_body_traced a b) (cos_chunk_body a b)
    (fun i s => cos_chunk_body_erase a b i s) fuel 0
    ((_mm256_set1_ps 0, _mm256_set1_ps 0, _mm256_set1_ps 0), ⟨[], []⟩)
  dsimp only at hc
  rw [hc]
  cases chunk_loop n (cos_chunk_body_traced a b) fuel 0
      ((_mm256_set1_ps 0, _mm256_set1_ps 0, _mm256_set1_ps 0), ⟨[], []⟩) with
  | error e => rfl
  | ok r =>
    simp only [Except.map, ok_bind]
    have ht := tail_loop_map n Prod.fst (cos_tail_body_traced a b) (cos_tail_body a b)
      (fun i s => cos_tail_body_erase a b i s) fuel r.1
      ((reduce_lanes r.2.1.1, reduce_lanes r.2.1.2.1, reduce_lanes r.2.1.2.2), ⟨[], []⟩)
    dsimp only at ht
    rw [ht]
    cases tail_loop n (cos_tail_body_traced a b) fuel r.1
      ((reduce_lanes r.2.1.1, reduce_lanes r.2.1.2.1, reduce_lanes r.2.1.2.2), ⟨[], []⟩) <;>
      rfl

end Erasure2
section TracedClosed

open Finset

variable {α : Type} [CommRing α]

end TracedClosed
section TracedClosed2

open Finset

variable {α : Type} [CommRing α]

end TracedClosed2
section CosSumsLemmas

open Finset

variable {α β : Type}

theorem cos_tail_body_step [CommRing α] (a b : List α) (i : Nat) (s : α × α × α)
    (ha : i < a.length) (hb : i < b.length) :
    cos_tail_body a b i s =
      .ok (s.1 + ip_term a b i, s.2.1 + ip_term a a i, s.2.2 + ip_term b b i) := by
  obtain ⟨s0, s1, s2⟩ := s
  unfold cos_tail_body
  dsimp only
  rw [read_of_lt a i ha, read_of_lt b i hb]
  rfl

theorem cos_sums_closed [CommRing α] (fuel : Nat) (a b : List α) (n : Nat)
    (ha : n ≤ a.length) (hb : n ≤ b.length) (hn : n + 8 < 2 ^ 64) (hf : n < fuel) :
    cos_sums fuel a b n =
      .ok (∑ i in range n, ip_term a b i, ∑ i in range n, ip_term a a i,
        ∑ i in range n, ip_term b b i) := by
  unfold cos_sums
  have hm : 8 * (n / 8) + n % 8 = n := Nat.div_add_mod n 8
  have hr : n % 8 < 8 := Nat.mod_lt n (by decide)
  have hc := chunk_loop_spec n (cos_chunk_body a b) (n / 8)
    (fun k => (lane_sums (ip_term a b) k, lane_sums (ip_term a a) k,
      lane_sums (ip_term b b) k)) 0 fuel
    (fun k hk => by
      rw [Nat.zero_add]
      exact cos_chunk_body_lanes a b k (by omega) (by omega))
    (by omega) (by omega) (by omega) (by omega)
  simp only [lane_sums_zero, Nat.zero_add] at hc
  rw [hc, ok_bind]
  dsimp only
  have ht := tail_loop_spec n (cos_tail_body a b) (n % 8)
    (fun j => (∑ i in range (8 * (n / 8) + j), ip_term a b i,
        ∑ i in range (8 * (n / 8) + j), ip_term a a i,
        ∑ i in range (8 * (n / 8) + j), ip_term b b i))
    (8 * (n / 8)) fuel
    (fun j hj => by
      dsimp only
      rw [cos_tail_body_step a b _ _ (by omega) (by omega)]
      simp only [← Nat.add_assoc, sum_range_succ])
    (by omega) (by omega) (by omega)
  simp only [Nat.add_zero, hm] at ht
  simp only [reduce_lane_sums]
  exact ht

theorem cos_chunk_body_map [Add α] [Mul α] [Add β] [Mul β] (φ : α → β)
    (hadd : ∀ x y, φ (x + y) = φ x + φ y) (hmul : ∀ x y, φ (x * y) = φ x * φ y)
    (a b : List α) (i : Nat) (s : M256 α × M256 α × M256 α) :
    cos_chunk_body (a.map φ) (b.map φ) i
        (M256.map φ s.1, M256.map φ s.2.1, M256.map φ s.2.2) =
      (cos_chunk_body a b i s).map
        (fun t => (M256.map φ t.1, M256.map φ t.2.1, M256.map φ t.2.2)) := by
  obtain ⟨s0, s1, s2⟩ := s
  unfold cos_chunk_body
  dsimp only
  rw [loadu_map, loadu_map]
  cases _mm_loadu_si128 a i with
  | error e => rfl
  | ok x =>
    cases _mm_loadu_si128 b i with
    | error e => rfl
    | ok y =>
      simp [Except.map, bind, Except.bind, pure, Except.pure, M256.map, M128i.map,
        _mm256_fmadd_ps, _mm256_cvtph_ps, hadd, hmul]

theorem cos_tail_body_map [Add α] [Mul α] [Add β] [Mul β] (φ : α → β)
    (hadd : ∀ x y, φ (x + y) = φ x + φ y) (hmul : ∀ x y, φ (x * y) = φ x * φ y)
    (a b : List α) (i : Nat) (s : α × α × α) :
    cos_tail_body (a.map φ) (b.map φ) i (φ s.1, φ s.2.1, φ s.2.2) =
      (cos_tail_body a b i s).map (fun t => (φ t.1, φ t.2.1, φ t.2.2)) := by
  obtain ⟨s0, s1, s2⟩ := s
  unfold cos_tail_body
  dsimp only
  simp only [read_map]
  cases read a i with
  | error e => rfl
  | ok x =>
    cases read b i with
    | error e => rfl
    | ok y =>
      simp [Except.map, bind, Except.bind, pure, Except.pure, hadd, hmul]

theorem cos_sums_map [Zero α] [Add α] [Mul α] [Zero β] [Add β] [Mul β]
    (φ : α → β) (h0 : φ 0 = 0) (hadd : ∀ x y, φ (x + y) = φ x + φ y)
    (hmul : ∀ x y, φ (x * y) = φ x * φ y) (fuel : Nat) (a b : List α) (n : Nat) :
    cos_sums fuel (a.map φ) (b.map φ) n =
      (cos_sums fuel a b n).map (fun t => (φ t.1, φ t.2.1, φ t.2.2)) := by
  unfold cos_sums
  have hc := chunk_loop_map n
    (fun t : M256 α × M256 α × M256 α => (M256.map φ t.1, M256.map φ t.2.1, M256.map φ t.2.2))
    (cos_chunk_body a b) (cos_chunk_body (a.map φ) (b.map φ))
    (cos_chunk_body_map φ hadd hmul a b) fuel 0
    (_mm256_set1_ps 0, _mm256_set1_ps 0, _mm256_set1_ps 0)
  dsimp only at hc
  rw [set1_zero_map φ h0] at hc
  rw [hc]
  cases chunk_loop n (cos_chunk_body a b) fuel 0
      (_mm256_set1_ps 0, _mm256_set1_ps 0, _mm256_set1_ps 0) with
  | error e => rfl
  | ok r =>
    simp only [Except.map, ok_bind]
    have ht := tail_loop_map n (fun t : α × α × α => (φ t.1, φ t.2.1, φ t.2.2))
      (cos_tail_body a b) (cos_tail_body (a.map φ) (b.map φ))
      (cos_tail_body_map φ hadd hmul a b) fuel r.1
      (reduce_lanes r.2.1, reduce_lanes r.2.2.1, reduce_lanes r.2.2.2)
    dsimp only at ht
    simp only [reduce_lanes_map φ hadd]
    rw [ht]
    cases tail_loop n (cos_tail_body a b) fuel r.1
      (reduce_lanes r.2.1, reduce_lanes r.2.2.1, reduce_lanes r.2.2.2) <;> rfl

end CosSumsLemmas

section FpLemmas

open Finset

variable {K : Type} [LinearOrderedCommRing K]

theorem l2sq_fin (fuel : Nat) (a b : List K) (n : Nat)
    (ha : n ≤ a.length) (hb : n ≤ b.length) (hn : n + 8 < 2 ^ 64) (hf : n < fuel) :
    simsimd_avx2_f16_l2sq fuel (a.map Fp.fin) (b.map Fp.fin) n =
      .ok (Fp.fin (∑ i in range n, l2sq_term a b i)) := by
  rw [l2sq_map Fp.fin rfl (fun _ _ => rfl) (fun _ _ => rfl) (fun _ _ => rfl),
    l2sq_closed fuel a b n ha hb hn hf]
  rfl

theorem cos_fin (rsqrt : Fp K → Fp K) (fuel : Nat) (a b : List K) (n : Nat)
    (ha : n ≤ a.length) (hb : n ≤ b.length) (hn : n + 8 < 2 ^ 64) (hf : n < fuel) :
    simsimd_avx2_f16_cos rsqrt fuel (a.map Fp.fin) (b.map Fp.fin) n =
      .ok (Fp.fin (∑ i in range n, ip_term a b i) *
        rsqrt (Fp.fin ((∑ i in range n, ip_term a a i) * (∑ i in range n, ip_term b b i)))) := by
  rw [cos_loops_eq, cos_sums_map Fp.fin rfl (fun _ _ => rfl) (fun _ _ => rfl),
    cos_sums_closed fuel a b n ha hb hn hf]
  rfl

end FpLemmas

section FpArithLemmas

variable {K : Type} [LinearOrderedRing K]

theorem Fp.fin_mul_fin (x y : K) : (Fp.fin x * Fp.fin y : Fp K) = Fp.fin (x * y) := rfl

theorem Fp.zero_def : (0 : Fp K) = Fp.fin 0 := rfl

theorem Fp.fin_zero_mul_inf (s : Bool) : (Fp.fin 0 * Fp.inf s : Fp K) = Fp.nan := by
  show Fp.mul (Fp.fin 0) (Fp.inf s) = Fp.nan
  simp [Fp.mul]

theorem Fp.mul_nan (v : Fp K) : v * Fp.nan = Fp.nan := by
  cases v <;> rfl

theorem Fp.nan_mul (v : Fp K) : Fp.nan * v = Fp.nan := by
  cases v <;> rfl

theorem Fp.inf_mul_ne_fin (s : Bool) (v : Fp K) (x : K) : Fp.inf s * v ≠ Fp.fin x := by
  cases v with
  | fin y =>
    show (if y = 0 then Fp.nan else Fp.inf (s != decide (y < 0))) ≠ Fp.fin x
    split <;> simp
  | inf t =>
    show Fp.mul (Fp.inf s) (Fp.inf t) ≠ Fp.fin x
    simp [Fp.mul]
  | nan =>
    show Fp.mul (Fp.inf s) Fp.nan ≠ Fp.fin x
    simp [Fp.mul]

end FpArithLemmas

section FpArithLemmas2

theorem Fp.add_nan {K : Type} [LinearOrderedRing K] (v : Fp K) : v + Fp.nan = Fp.nan := by
  cases v <;> rfl

end FpArithLemmas2

/-! ## The claims -/

section Claims

open Finset

/-- C1: for vectors `a`, `b` of length `n` (`n` any length for which `n + 8` is
representable as a `simsimd_size_t`, which every array of two-byte elements in
a 64-bit address space satisfies) and enough fuel for the two loops, `simsimd_avx2_f16_l2sq` returns the sum over all `i < n` of
`(a[i] - b[i])^2`; the chunk loop, the lane reduction and the scalar tail
together equal the single linear scalar scan of the same terms. -/
theorem simsimd_avx2_f16_l2sq_eq_sum {α : Type} [CommRing α] (fuel : Nat) (a b : List α)
    (n : Nat) (ha : a.length = n) (hb : b.length = n) (hn : n + 8 < 2 ^ 64) (hf : n < fuel) :
    simsimd_avx2_f16_l2sq fuel a b n = .ok (∑ i in range n, (a.getD i 0 - b.getD i 0) ^ 2) ∧
    simsimd_avx2_f16_l2sq fuel a b n =
      .ok (scalar_scan (fun i => (a.getD i 0 - b.getD i 0) * (a.getD i 0 - b.getD i 0)) n) := by
  have h := l2sq_closed fuel a b n (by omega) (by omega) hn hf
  refine ⟨?_, ?_⟩
  · rw [h]
    congr 1
    exact sum_congr rfl (fun i _ => by simp only [l2sq_term]; ring)
  · rw [h, scalar_scan_eq_sum]
    rfl

/-- Witness of C1: lengths 9, one full chunk and a one-element tail. -/
theorem simsimd_avx2_f16_l2sq_eq_sum_witness :
    (([1, 2, 3, 4, 5, 6, 7, 8, 9] : List ℚ).length = 9 ∧
      ([9, 8, 7, 6, 5, 4, 3, 2, 1] : List ℚ).length = 9 ∧ 9 + 8 < 2 ^ 64 ∧ 9 < 10) ∧
    (simsimd_avx2_f16_l2sq 10 ([1, 2, 3, 4, 5, 6, 7, 8, 9] : List ℚ) [9, 8, 7, 6, 5, 4, 3, 2, 1] 9
        = .ok (∑ i in range 9, (([1, 2, 3, 4, 5, 6, 7, 8, 9] : List ℚ).getD i 0 -
            ([9, 8, 7, 6, 5, 4, 3, 2, 1] : List ℚ).getD i 0) ^ 2) ∧
      simsimd_avx2_f16_l2sq 10 ([1, 2, 3, 4, 5, 6, 7, 8, 9] : List ℚ) [9, 8, 7, 6, 5, 4, 3, 2, 1] 9
        = .ok (scalar_scan (fun i => (([1, 2, 3, 4, 5, 6, 7, 8, 9] : List ℚ).getD i 0 -
            ([9, 8, 7, 6, 5, 4, 3, 2, 1] : List ℚ).getD i 0) *
            (([1, 2, 3, 4, 5, 6, 7, 8, 9] : List ℚ).getD i 0 -
            ([9, 8, 7, 6, 5, 4, 3, 2, 1] : List ℚ).getD i 0)) 9)) :=
  ⟨⟨rfl, rfl, by decide, by decide⟩,
    simsimd_avx2_f16_l2sq_eq_sum 10 _ _ 9 rfl rfl (by decide) (by decide)⟩

/-- C2: for vectors `a`, `b` of length `n` (`n + 8` representable as a
`simsimd_size_t`) and enough fuel, `simsimd_avx2_f16_ip` returns the sum over
all `i < n` of `a[i] * b[i]`, which is the naive reference scan. -/
theorem simsimd_avx2_f16_ip_eq_sum {α : Type} [CommRing α] (fuel : Nat) (a b : List α)
    (n : Nat) (ha : a.length = n) (hb : b.length = n) (hn : n + 8 < 2 ^ 64) (hf : n < fuel) :
    simsimd_avx2_f16_ip fuel a b n = .ok (∑ i in range n, a.getD i 0 * b.getD i 0) ∧
    simsimd_avx2_f16_ip fuel a b n =
      .ok (scalar_scan (fun i => a.getD i 0 * b.getD i 0) n) := by
  have h := ip_closed fuel a b n (by omega) (by omega) hn hf
  refine ⟨h, ?_⟩
  rw [h, scalar_scan_eq_sum]
  rfl

/-- Witness of C2: lengths 9, one full chunk and a one-element tail. -/
theorem simsimd_avx2_f16_ip_eq_sum_witness :
    (([1, 2, 3, 4, 5, 6, 7, 8, 9] : List ℚ).length = 9 ∧
      ([9, 8, 7, 6, 5, 4, 3, 2, 1] : List ℚ).length = 9 ∧ 9 + 8 < 2 ^ 64 ∧ 9 < 10) ∧
    (simsimd_avx2_f16_ip 10 ([1, 2, 3, 4, 5, 6, 7, 8, 9] : List ℚ) [9, 8, 7, 6, 5, 4, 3, 2, 1] 9
        = .ok (∑ i in range 9, ([1, 2, 3, 4, 5, 6, 7, 8, 9] : List ℚ).getD i 0 *
            ([9, 8, 7, 6, 5, 4, 3, 2, 1] : List ℚ).getD i 0) ∧
      simsimd_avx2_f16_ip 10 ([1, 2, 3, 4, 5, 6, 7, 8, 9] : List ℚ) [9, 8, 7, 6, 5, 4, 3, 2, 1] 9
        = .ok (scalar_scan (fun i => ([1, 2, 3, 4, 5, 6, 7, 8, 9] : List ℚ).getD i 0 *
            ([9, 8, 7, 6, 5, 4, 3, 2, 1] : List ℚ).getD i 0) 9)) :=
  ⟨⟨rfl, rfl, by decide, by decide⟩,
    simsimd_avx2_f16_ip_eq_sum 10 _ _ 9 rfl rfl (by decide) (by decide)⟩

/-- C3: for vectors `a`, `b` of length `n` (`n + 8` representable as a
`simsimd_size_t`) and enough fuel, `simsimd_avx2_f16_cos` returns
`(Σ a[i] * b[i]) * rsqrt ((Σ a[i]^2) * (Σ b[i]^2))`, the three sums over every
`i < n`; when `rsqrt x = 1 / √x` for `x > 0` and both vectors have a non-zero
entry, this is `(a · b) / (‖a‖ * ‖b‖)`. -/
theorem simsimd_avx2_f16_cos_eq (rsqrt : ℝ → ℝ) (fuel : Nat) (a b : List ℝ) (n : Nat)
    (ha : a.length = n) (hb : b.length = n) (hn : n + 8 < 2 ^ 64) (hf : n < fuel) :
    simsimd_avx2_f16_cos rsqrt fuel a b n =
      .ok ((∑ i in range n, a.getD i 0 * b.getD i 0) *
        rsqrt ((∑ i in range n, a.getD i 0 ^ 2) * (∑ i in range n, b.getD i 0 ^ 2))) ∧
    ((∀ x : ℝ, 0 < x → rsqrt x = 1 / Real.sqrt x) →
      (∃ i, i < n ∧ a.getD i 0 ≠ 0) → (∃ i, i < n ∧ b.getD i 0 ≠ 0) →
      simsimd_avx2_f16_cos rsqrt fuel a b n =
        .ok ((∑ i in range n, a.getD i 0 * b.getD i 0) /
          (Real.sqrt (∑ i in range n, a.getD i 0 ^ 2) *
            Real.sqrt (∑ i in range n, b.getD i 0 ^ 2)))) := by
  have h := cos_closed_real rsqrt fuel a b n (by omega) (by omega) hn hf
  simp only [sq]
  refine ⟨h, ?_⟩
  intro hex hane hbne
  have hA := sum_sq_pos a n hane
  have hB := sum_sq_pos b n hbne
  rw [h, hex _ (mul_pos hA hB), Real.sqrt_mul hA.le]
  congr 1
  ring

/-- Witness of C3: `a = [3, 4]`, `b = [4, 3]` with the exact reciprocal square
root. -/
theorem simsimd_avx2_f16_cos_eq_witness :
    (([3, 4] : List ℝ).length = 2 ∧ ([4, 3] : List ℝ).length = 2 ∧ 2 + 8 < 2 ^ 64 ∧ 2 < 3) ∧
    simsimd_avx2_f16_cos (fun x => 1 / Real.sqrt x) 3 ([3, 4] : List ℝ) [4, 3] 2 =
      .ok ((∑ i in range 2, ([3, 4] : List ℝ).getD i 0 * ([4, 3] : List ℝ).getD i 0) /
        (Real.sqrt (∑ i in range 2, ([3, 4] : List ℝ).getD i 0 ^ 2) *
          Real.sqrt (∑ i in range 2, ([4, 3] : List ℝ).getD i 0 ^ 2))) :=
  ⟨⟨rfl, rfl, by decide, by decide⟩,
    (simsimd_avx2_f16_cos_eq (fun x => 1 / Real.sqrt x) 3 [3, 4] [4, 3] 2 rfl rfl
      (by decide) (by decide)).2 (fun _ _ => rfl)
      ⟨0, by decide, by norm_num⟩ ⟨0, by decide, by norm_num⟩⟩

/-- C5: on `a = [1, .., 9]`, `b = [9, .., 1]`, `n = 9` (one full chunk and a
one-element tail) and with fuel for more than nine iterations,
`simsimd_avx2_f16_l2sq` returns `240`, `simsimd_avx2_f16_ip` returns `165` and
`simsimd_avx2_f16_cos` returns `165 * rsqrt (285 * 285)`, over every
commutative ring of values; over the reals the cosine is `165 / 285` when
`rsqrt x = 1 / √x` for `x > 0`. -/
theorem scenario_n9 {α : Type} [CommRing α] (rsqrt : α → α) (rsqrt_real : ℝ → ℝ) (fuel : Nat)
    (hf : 9 < fuel) :
    simsimd_avx2_f16_l2sq fuel ([1, 2, 3, 4, 5, 6, 7, 8, 9] : List α)
      [9, 8, 7, 6, 5, 4, 3, 2, 1] 9 = .ok 240 ∧
    simsimd_avx2_f16_ip fuel ([1, 2, 3, 4, 5, 6, 7, 8, 9] : List α)
      [9, 8, 7, 6, 5, 4, 3, 2, 1] 9 = .ok 165 ∧
    simsimd_avx2_f16_cos rsqrt fuel ([1, 2, 3, 4, 5, 6, 7, 8, 9] : List α)
      [9, 8, 7, 6, 5, 4, 3, 2, 1] 9 = .ok (165 * rsqrt (285 * 285)) ∧
    ((∀ x : ℝ, 0 < x → rsqrt_real x = 1 / Real.sqrt x) →
      simsimd_avx2_f16_cos rsqrt_real fuel ([1, 2, 3, 4, 5, 6, 7, 8, 9] : List ℝ)
        [9, 8, 7, 6, 5, 4, 3, 2, 1] 9 = .ok (165 / 285)) := by
  have hA : ∀ (β : Type) [CommRing β], ∑ i in range 9,
      ip_term ([1, 2, 3, 4, 5, 6, 7, 8, 9] : List β) [1, 2, 3, 4, 5, 6, 7, 8, 9] i = 285 := by
    intro β _
    simp [sum_range_succ, ip_term]
    norm_num
  have hB : ∀ (β : Type) [CommRing β], ∑ i in range 9,
      ip_term ([9, 8, 7, 6, 5, 4, 3, 2, 1] : List β) [9, 8, 7, 6, 5, 4, 3, 2, 1] i = 285 := by
    intro β _
    simp [sum_range_succ, ip_term]
    norm_num
  have hD : ∀ (β : Type) [CommRing β], ∑ i in range 9,
      ip_term ([1, 2, 3, 4, 5, 6, 7, 8, 9] : List β) [9, 8, 7, 6, 5, 4, 3, 2, 1] i = 165 := by
    intro β _
    simp [sum_range_succ, ip_term]
    norm_num
  have hL : ∑ i in range 9,
      l2sq_term ([1, 2, 3, 4, 5, 6, 7, 8, 9] : List α) [9, 8, 7, 6, 5, 4, 3, 2, 1] i = 240 := by
    simp [sum_range_succ, l2sq_term]
    norm_num
  have h9 : (9 : Nat) + 8 < 2 ^ 64 := by decide
  refine ⟨?_, ?_, ?_, ?_⟩
  · rw [l2sq_closed fuel _ _ 9 (by simp) (by simp) h9 hf, hL]
  · rw [ip_closed fuel _ _ 9 (by simp) (by simp) h9 hf, hD]
  · rw [cos_closed rsqrt fuel _ _ 9 (by simp) (by simp) h9 hf, hA, hB, hD]
  · intro hex
    rw [cos_closed rsqrt_real fuel _ _ 9 (by simp) (by simp) h9 hf, hA, hB, hD,
      hex _ (by norm_num), Real.sqrt_mul_self (by norm_num)]
    congr 1
    norm_num

/-- Witness of C5: rational values, fuel 10, and the exact reciprocal square
root over the reals. -/
theorem scenario_n9_witness :
    9 < 10 ∧
    simsimd_avx2_f16_l2sq 10 ([1, 2, 3, 4, 5, 6, 7, 8, 9] : List ℚ)
      [9, 8, 7, 6, 5, 4, 3, 2, 1] 9 = .ok 240 ∧
    simsimd_avx2_f16_ip 10 ([1, 2, 3, 4, 5, 6, 7, 8, 9] : List ℚ)
      [9, 8, 7, 6, 5, 4, 3, 2, 1] 9 = .ok 165 ∧
    simsimd_avx2_f16_cos (fun x => x / 2) 10 ([1, 2, 3, 4, 5, 6, 7, 8, 9] : List ℚ)
      [9, 8, 7, 6, 5, 4, 3, 2, 1] 9 = .ok (165 * ((fun x => x / 2) (285 * 285))) ∧
    simsimd_avx2_f16_cos (fun x => 1 / Real.sqrt x) 10 ([1, 2, 3, 4, 5, 6, 7, 8, 9] : List ℝ)
      [9, 8, 7, 6, 5, 4, 3, 2, 1] 9 = .ok (165 / 285) :=
  have h := scenario_n9 (fun x : ℚ => x / 2) (fun x => 1 / Real.sqrt x) 10 (by decide)
  ⟨by decide, h.1, h.2.1, h.2.2.1, h.2.2.2 (fun _ _ => rfl)⟩

/-- C6: for `n = 0` and any `a`, `b` (one unit of fuel per loop test),
`simsimd_avx2_f16_l2sq` and `simsimd_avx2_f16_ip` return `0`: the chunk loop and
the tail loop leave their state unchanged whatever their bodies are, and the
lane reduction of the all-zero accumulator is `0`. -/
theorem simsimd_avx2_f16_zero_length {α : Type} [CommRing α] (fuel : Nat) (a b : List α)
    (hf : 0 < fuel) :
    simsimd_avx2_f16_l2sq fuel a b 0 = .ok 0 ∧
    simsimd_avx2_f16_ip fuel a b 0 = .ok 0 ∧
    (∀ (body : Nat → M256 α → Except Fault (M256 α)) (s : M256 α),
      chunk_loop 0 body fuel 0 s = .ok (0, s)) ∧
    (∀ (body : Nat → α → Except Fault α) (s : α), tail_loop 0 body fuel 0 s = .ok s) ∧
    _mm_store_ss (_mm256_castps256_ps128
      (_mm256_hadd_ps
        (_mm256_hadd_ps
          (_mm256_add_ps (_mm256_permute2f128_ps (_mm256_set1_ps (0 : α)) (_mm256_set1_ps 0) 1)
            (_mm256_set1_ps 0))
          (_mm256_add_ps (_mm256_permute2f128_ps (_mm256_set1_ps (0 : α)) (_mm256_set1_ps 0) 1)
            (_mm256_set1_ps 0)))
        (_mm256_hadd_ps
          (_mm256_add_ps (_mm256_permute2f128_ps (_mm256_set1_ps (0 : α)) (_mm256_set1_ps 0) 1)
            (_mm256_set1_ps 0))
          (_mm256_add_ps (_mm256_permute2f128_ps (_mm256_set1_ps (0 : α)) (_mm256_set1_ps 0) 1)
            (_mm256_set1_ps 0))))) = 0 := by
  obtain ⟨f, rfl⟩ : ∃ f, fuel = f + 1 := ⟨fuel - 1, by omega⟩
  have h8 : ¬ size_wrap (0 + 8) ≤ 0 := by decide
  refine ⟨?_, ?_, ?_, ?_, ?_⟩
  · have := l2sq_closed (f + 1) a b 0 (Nat.zero_le _) (Nat.zero_le _) (by decide) hf
    simpa using this
  · have := ip_closed (f + 1) a b 0 (Nat.zero_le _) (Nat.zero_le _) (by decide) hf
    simpa using this
  · intro body s
    simp only [chunk_loop, h8, if_false]
  · intro body s
    simp only [tail_loop, Nat.lt_irrefl, if_false]
  · simp [_mm256_add_ps, _mm256_permute2f128_ps, _mm256_hadd_ps, _mm_store_ss,
      _mm256_castps256_ps128, select4, _mm256_set1_ps]

/-- Witness of C6: the empty vectors and one unit of fuel. -/
theorem simsimd_avx2_f16_zero_length_witness :
    0 < 1 ∧ simsimd_avx2_f16_l2sq 1 ([] : List ℚ) [] 0 = .ok 0 ∧
      simsimd_avx2_f16_ip 1 ([] : List ℚ) [] 0 = .ok 0 :=
  have h := simsimd_avx2_f16_zero_length 1 ([] : List ℚ) [] (by decide)
  ⟨by decide, h.1, h.2.1⟩

/-- Counterexample to C7 as stated: the one-element vector `[+∞]` is at squared
distance NaN from itself, not `0` (`∞ - ∞` is NaN). -/
theorem simsimd_avx2_f16_l2sq_self_inf :
    simsimd_avx2_f16_l2sq 2 [(Fp.inf false : Fp ℚ)] [Fp.inf false] 1 = .ok Fp.nan ∧
    (Fp.nan : Fp ℚ) ≠ 0 :=
  ⟨rfl, fun h => by cases h⟩

/-- C7, as amended: for every vector `a` of finite values, of every length `n`
(`n + 8` representable as a `simsimd_size_t`, enough fuel),
`simsimd_avx2_f16_l2sq` of `a` with itself returns `0`, in exact arithmetic with
the IEEE special values. -/
theorem simsimd_avx2_f16_l2sq_self_finite {K : Type} [LinearOrderedCommRing K] (fuel : Nat)
    (a : List K) (n : Nat) (ha : a.length = n) (hn : n + 8 < 2 ^ 64) (hf : n < fuel) :
    simsimd_avx2_f16_l2sq fuel (a.map Fp.fin) (a.map Fp.fin) n = .ok 0 := by
  rw [l2sq_fin fuel a a n (by omega) (by omega) hn hf]
  have h : ∑ i in range n, l2sq_term a a i = 0 :=
    sum_eq_zero (fun i _ => by simp only [l2sq_term, sub_self, mul_zero])
  rw [h]
  rfl

/-- Witness of C7 as amended: a rational vector of length 9. -/
theorem simsimd_avx2_f16_l2sq_self_finite_witness :
    (([1, 2, 3, 4, 5, 6, 7, 8, 9] : List ℚ).length = 9 ∧ 9 + 8 < 2 ^ 64 ∧ 9 < 10) ∧
    simsimd_avx2_f16_l2sq 10 (([1, 2, 3, 4, 5, 6, 7, 8, 9] : List ℚ).map Fp.fin)
      (([1, 2, 3, 4, 5, 6, 7, 8, 9] : List ℚ).map Fp.fin) 9 = .ok 0 :=
  ⟨⟨rfl, by decide, by decide⟩,
    simsimd_avx2_f16_l2sq_self_finite 10 _ 9 rfl (by decide) (by decide)⟩

/-- C8: `simsimd_avx2_f16_l2sq` is symmetric in its two vector arguments, for
every pair of vectors, every length and every amount of fuel (faulting runs
included). -/
theorem simsimd_avx2_f16_l2sq_symm {α : Type} [CommRing α] (fuel : Nat) (a b : List α)
    (n : Nat) :
    simsimd_avx2_f16_l2sq fuel a b n = simsimd_avx2_f16_l2sq fuel b a n := by
  unfold simsimd_avx2_f16_l2sq
  rw [l2sq_chunk_body_symm a b, l2sq_tail_body_symm a b]

/-- Counterexample to C9 as stated: `a = [+∞]` is a non-zero vector, and for
every reciprocal-square-root primitive the cosine of `a` with itself is
`∞ * rsqrt ∞`, which is infinite or NaN, never a finite value near `1`. -/
theorem simsimd_avx2_f16_cos_self_inf :
    (Fp.inf false : Fp ℚ) ≠ 0 ∧
    ∀ rsqrt : Fp ℚ → Fp ℚ,
      simsimd_avx2_f16_cos rsqrt 2 [(Fp.inf false : Fp ℚ)] [Fp.inf false] 1 =
        .ok (Fp.inf false * rsqrt (Fp.inf false)) ∧
      ∀ x : ℚ, Fp.inf false * rsqrt (Fp.inf false) ≠ Fp.fin x :=
  ⟨Fp.noConfusion, fun _ => ⟨rfl, fun x => Fp.inf_mul_ne_fin false _ x⟩⟩

/-- C9, as amended: for every vector `a` of finite values, of length `n` and
with a non-zero entry (`n + 8` representable as a `simsimd_size_t`, enough
fuel), `simsimd_avx2_f16_cos` of `a` with itself returns `S * rsqrt (S * S)`
with `S = Σ a[i]^2 > 0`; the value is `1` when `rsqrt x = 1 / √x` for `x > 0`,
and it is within `ε` of `1` whenever `rsqrt x * √x` is within `ε` of `1` for
`x > 0` (exact arithmetic with the IEEE special values). -/
theorem simsimd_avx2_f16_cos_self_finite (rsqrt : Fp ℝ → Fp ℝ) (fuel : Nat) (a : List ℝ)
    (n : Nat) (ha : a.length = n) (hn : n + 8 < 2 ^ 64) (hf : n < fuel)
    (hne : ∃ i, i < n ∧ a.getD i 0 ≠ 0) :
    0 < ∑ i in range n, a.getD i 0 ^ 2 ∧
    simsimd_avx2_f16_cos rsqrt fuel (a.map Fp.fin) (a.map Fp.fin) n =
      .ok (Fp.fin (∑ i in range n, a.getD i 0 ^ 2) *
        rsqrt (Fp.fin ((∑ i in range n, a.getD i 0 ^ 2) * (∑ i in range n, a.getD i 0 ^ 2)))) ∧
    ((∀ x : ℝ, 0 < x → rsqrt (Fp.fin x) = Fp.fin (1 / Real.sqrt x)) →
      simsimd_avx2_f16_cos rsqrt fuel (a.map Fp.fin) (a.map Fp.fin) n = .ok (Fp.fin 1)) ∧
    (∀ ε : ℝ, (∀ x : ℝ, 0 < x → ∃ r, rsqrt (Fp.fin x) = Fp.fin r ∧
        |r * Real.sqrt x - 1| ≤ ε) →
      ∃ v, simsimd_avx2_f16_cos rsqrt fuel (a.map Fp.fin) (a.map Fp.fin) n = .ok (Fp.fin v) ∧
        |v - 1| ≤ ε) := by
  have h := cos_fin rsqrt fuel a a n (by omega) (by omega) hn hf
  simp only [ip_term] at h
  have hS := sum_sq_pos a n hne
  simp only [sq]
  refine ⟨hS, h, ?_, ?_⟩
  · intro hex
    rw [h, hex _ (mul_pos hS hS), Real.sqrt_mul_self hS.le, Fp.fin_mul_fin,
      mul_one_div_cancel (ne_of_gt hS)]
  · intro ε hε
    obtain ⟨r, hr, hb⟩ := hε _ (mul_pos hS hS)
    rw [Real.sqrt_mul_self hS.le] at hb
    refine ⟨_, by rw [h, hr, Fp.fin_mul_fin], ?_⟩
    rwa [mul_comm]

/-- Witness of C9 as amended: `a = [3, 4]` with the exact reciprocal square
root on the finite positive values. -/
theorem simsimd_avx2_f16_cos_self_finite_witness :
    (([3, 4] : List ℝ).length = 2 ∧ 2 + 8 < 2 ^ 64 ∧ 2 < 3 ∧
      ∃ i, i < 2 ∧ ([3, 4] : List ℝ).getD i 0 ≠ 0) ∧
    simsimd_avx2_f16_cos (Fp.rsqrt_of (fun x => 1 / Real.sqrt x)) 3
      (([3, 4] : List ℝ).map Fp.fin) (([3, 4] : List ℝ).map Fp.fin) 2 = .ok (Fp.fin 1) :=
  ⟨⟨rfl, by decide, by decide, ⟨0, by decide, by norm_num⟩⟩,
    (simsimd_avx2_f16_cos_self_finite (Fp.rsqrt_of (fun x => 1 / Real.sqrt x)) 3 [3, 4] 2 rfl
      (by decide) (by decide) ⟨0, by decide, by norm_num⟩).2.2.1
      (fun x hx => by simp [Fp.rsqrt_of, ne_of_gt hx, hx])⟩

/-- Counterexample to C11 as stated: on `a = b = [1, +∞]` the kernel returns
NaN, and `0 <= NaN` is false. -/
theorem simsimd_avx2_f16_l2sq_nan :
    simsimd_avx2_f16_l2sq 3 [(Fp.fin 1 : Fp ℚ), Fp.inf false] [Fp.fin 1, Fp.inf false] 2 =
      .ok Fp.nan ∧
    ¬ ((0 : Fp ℚ) ≤ Fp.nan) :=
  ⟨rfl, fun h => h⟩

/-- C11, as amended: for vectors `a`, `b` of finite values and of length `n`
(`n + 8` representable as a `simsimd_size_t`, enough fuel),
`simsimd_avx2_f16_l2sq` returns a finite value `r` with `0 ≤ r`, in exact
arithmetic with the IEEE special values. -/
theorem simsimd_avx2_f16_l2sq_nonneg_finite {K : Type} [LinearOrderedCommRing K] (fuel : Nat)
    (a b : List K) (n : Nat) (ha : a.length = n) (hb : b.length = n) (hn : n + 8 < 2 ^ 64)
    (hf : n < fuel) :
    ∃ r : K, simsimd_avx2_f16_l2sq fuel (a.map Fp.fin) (b.map Fp.fin) n = .ok (Fp.fin r) ∧
      0 ≤ r ∧ (0 : Fp K) ≤ Fp.fin r := by
  have h : (0 : K) ≤ ∑ i in range n, l2sq_term a b i :=
    sum_nonneg (fun _ _ => mul_self_nonneg _)
  exact ⟨_, l2sq_fin fuel a b n (by omega) (by omega) hn hf, h, h⟩

/-- Witness of C11 as amended: rational vectors of length 9. -/
theorem simsimd_avx2_f16_l2sq_nonneg_finite_witness :
    (([1, 2, 3, 4, 5, 6, 7, 8, 9] : List ℚ).length = 9 ∧
      ([9, 8, 7, 6, 5, 4, 3, 2, 1] : List ℚ).length = 9 ∧ 9 + 8 < 2 ^ 64 ∧ 9 < 10) ∧
    ∃ r : ℚ, simsimd_avx2_f16_l2sq 10 (([1, 2, 3, 4, 5, 6, 7, 8, 9] : List ℚ).map Fp.fin)
        (([9, 8, 7, 6, 5, 4, 3, 2, 1] : List ℚ).map Fp.fin) 9 = .ok (Fp.fin r) ∧
      0 ≤ r ∧ (0 : Fp ℚ) ≤ Fp.fin r :=
  ⟨⟨rfl, rfl, by decide, by decide⟩,
    simsimd_avx2_f16_l2sq_nonneg_finite 10 _ _ 9 rfl rfl (by decide) (by decide)⟩

/-- Counterexample to C12 as stated: with `a = [0]` the all-zero vector and the
other vector `b = [+∞]`, the kernel returns NaN (`0 * ∞` enters the dot
product), while `0 * rsqrt 0` is `0` for the primitive `rsqrt x = x`: the value
is not independent of the other vector. -/
theorem simsimd_avx2_f16_cos_degenerate_inf :
    simsimd_avx2_f16_cos (fun v : Fp ℚ => v) 2 [(Fp.fin 0 : Fp ℚ)] [Fp.inf false] 1 =
      .ok Fp.nan ∧
    (0 : Fp ℚ) * (fun v : Fp ℚ => v) 0 = Fp.fin 0 ∧
    (Fp.nan : Fp ℚ) ≠ Fp.fin 0 := by
  refine ⟨?_, ?_, Fp.noConfusion⟩
  · have h : simsimd_avx2_f16_cos (fun v : Fp ℚ => v) 2 [(Fp.fin 0 : Fp ℚ)] [Fp.inf false] 1 =
        .ok ((0 + 0 + (0 + 0) + (0 + 0 + (0 + 0)) + Fp.fin 0 * Fp.inf false) *
          ((0 + 0 + (0 + 0) + (0 + 0 + (0 + 0)) + Fp.fin 0 * Fp.fin 0) *
            (0 + 0 + (0 + 0) + (0 + 0 + (0 + 0)) + Fp.inf false * Fp.inf false))) := rfl
    rw [h, Fp.fin_zero_mul_inf, Fp.add_nan, Fp.nan_mul]
  · show (Fp.fin (0 * 0) : Fp ℚ) = Fp.fin 0
    rw [zero_mul]

/-- C12, as amended: on degenerate input with finite values, that is `n = 0`,
or `a` zero at every index below `n`, or `b` zero at every index below `n`
(vectors readable for `n` elements, `n + 8` representable as a
`simsimd_size_t`, enough fuel), `simsimd_avx2_f16_cos` returns a value and the
value is `0 * rsqrt 0`, whatever `n` and the other vector are.  It is
determined by `rsqrt` at `0` alone: `0` when `rsqrt 0` is finite, NaN when
`rsqrt 0` is infinite or NaN; no branch of the kernel treats a zero norm
apart. -/
theorem simsimd_avx2_f16_cos_degenerate_finite {K : Type} [LinearOrderedCommRing K]
    (rsqrt : Fp K → Fp K) (fuel : Nat) (a b : List K) (n : Nat) (ha : n ≤ a.length)
    (hb : n ≤ b.length) (hn : n + 8 < 2 ^ 64) (hf : n < fuel)
    (hdeg : n = 0 ∨ (∀ i, i < n → a.getD i 0 = 0) ∨ (∀ i, i < n → b.getD i 0 = 0)) :
    simsimd_avx2_f16_cos rsqrt fuel (a.map Fp.fin) (b.map Fp.fin) n = .ok (0 * rsqrt 0) ∧
    (∀ r, rsqrt 0 = Fp.fin r →
      simsimd_avx2_f16_cos rsqrt fuel (a.map Fp.fin) (b.map Fp.fin) n = .ok 0) ∧
    (∀ s, rsqrt 0 = Fp.inf s →
      simsimd_avx2_f16_cos rsqrt fuel (a.map Fp.fin) (b.map Fp.fin) n = .ok Fp.nan) ∧
    (rsqrt 0 = Fp.nan →
      simsimd_avx2_f16_cos rsqrt fuel (a.map Fp.fin) (b.map Fp.fin) n = .ok Fp.nan) := by
  have h : simsimd_avx2_f16_cos rsqrt fuel (a.map Fp.fin) (b.map Fp.fin) n =
      .ok (0 * rsqrt 0) := by
    rw [cos_fin rsqrt fuel a b n ha hb hn hf]
    rcases hdeg with h0 | hz | hz
    · subst h0
      simp only [range_zero, sum_empty, mul_zero]
      rfl
    · have h1 : ∑ i in range n, ip_term a b i = 0 :=
        sum_eq_zero (fun i hi => by
          simp only [ip_term, hz i (mem_range.mp hi), zero_mul, mul_zero])
      have h2 : ∑ i in range n, ip_term a a i = 0 :=
        sum_eq_zero (fun i hi => by
          simp only [ip_term, hz i (mem_range.mp hi), zero_mul, mul_zero])
      simp only [h1, h2, zero_mul, mul_zero]
      rfl
    · have h1 : ∑ i in range n, ip_term a b i = 0 :=
        sum_eq_zero (fun i hi => by
          simp only [ip_term, hz i (mem_range.mp hi), zero_mul, mul_zero])
      have h2 : ∑ i in range n, ip_term b b i = 0 :=
        sum_eq_zero (fun i hi => by
          simp only [ip_term, hz i (mem_range.mp hi), zero_mul, mul_zero])
      simp only [h1, h2, zero_mul, mul_zero]
      rfl
  refine ⟨h, ?_, ?_, ?_⟩
  · intro r hr
    rw [h, hr, Fp.zero_def, Fp.fin_mul_fin, zero_mul]
  · intro s hs
    rw [h, hs, Fp.zero_def, Fp.fin_zero_mul_inf]
  · intro hnan
    rw [h, hnan, Fp.mul_nan]

/-- Witness of C12 as amended: the zero vector of length 2 against `[4, 3]`,
with a primitive that is infinite at `0`. -/
theorem simsimd_avx2_f16_cos_degenerate_finite_witness :
    (2 ≤ ([0, 0] : List ℚ).length ∧ 2 ≤ ([4, 3] : List ℚ).length ∧ 2 + 8 < 2 ^ 64 ∧ 2 < 3) ∧
    simsimd_avx2_f16_cos (Fp.rsqrt_of (fun x : ℚ => x)) 3 (([0, 0] : List ℚ).map Fp.fin)
      (([4, 3] : List ℚ).map Fp.fin) 2 = .ok Fp.nan :=
  ⟨⟨by decide, by decide, by decide, by decide⟩,
    (simsimd_avx2_f16_cos_degenerate_finite (Fp.rsqrt_of (fun x : ℚ => x)) 3 [0, 0] [4, 3] 2
      (by decide) (by decide) (by decide) (by decide)
      (Or.inr (Or.inl (fun i hi => by
        rcases i with _ | _ | i
        · rfl
        · rfl
        · omega)))).2.2.1 false rfl⟩

/-- C13, as amended: for every length `n` with `n + 8` representable as a
`simsimd_size_t` and with fuel for more than `n` iterations, the chunk loop
runs exactly `n / 8` iterations and leaves `i = 8 * (n / 8)`, the tail loop
then runs exactly `n % 8` iterations (at most 7), and each of the three kernels
returns a value on vectors of length `n`. -/
theorem loop_counts_eq {α : Type} [CommRing α] (fuel n : Nat) (hn : n + 8 < 2 ^ 64)
    (hf : n < fuel) :
    loop_counts fuel n = .ok (n / 8, 8 * (n / 8), n % 8) ∧ n % 8 ≤ 7 ∧
    (∀ a b : List α, a.length = n → b.length = n →
      (∃ v, simsimd_avx2_f16_l2sq fuel a b n = .ok v) ∧
      (∃ v, simsimd_avx2_f16_ip fuel a b n = .ok v) ∧
      (∀ rsqrt : α → α, ∃ v, simsimd_avx2_f16_cos rsqrt fuel a b n = .ok v)) := by
  refine ⟨loop_counts_closed fuel n hn hf, ?_, ?_⟩
  · have := Nat.mod_lt n (show 0 < 8 by decide)
    omega
  · intro a b ha hb
    exact ⟨⟨_, l2sq_closed fuel a b n (by omega) (by omega) hn hf⟩,
      ⟨_, ip_closed fuel a b n (by omega) (by omega) hn hf⟩,
      fun rsqrt => ⟨_, cos_closed rsqrt fuel a b n (by omega) (by omega) hn hf⟩⟩

/-- Witness of C13 as amended: length 9, one chunk and one tail iteration. -/
theorem loop_counts_eq_witness :
    (9 + 8 < 2 ^ 64 ∧ 9 < 10) ∧
    loop_counts 10 9 = .ok (9 / 8, 8 * (9 / 8), 9 % 8) ∧ 9 % 8 ≤ 7 ∧
    (∀ a b : List ℚ, a.length = 9 → b.length = 9 →
      (∃ v, simsimd_avx2_f16_l2sq 10 a b 9 = .ok v) ∧
      (∃ v, simsimd_avx2_f16_ip 10 a b 9 = .ok v) ∧
      (∀ rsqrt : ℚ → ℚ, ∃ v, simsimd_avx2_f16_cos rsqrt 10 a b 9 = .ok v)) :=
  ⟨⟨by decide, by decide⟩, loop_counts_eq 10 9 (by decide) (by decide)⟩

/-- Counterexample to C13 as stated: `n = 2 ^ 64 - 1` is representable as a
`simsimd_size_t`, yet at `i = 8 * (n / 8)` the test `i + 8 <= n` still holds,
because `i + 8` wraps to `0`; the chunk loop never exits, whatever the fuel, and
no kernel returns a value for this `n`. -/
theorem loop_counts_size_max :
    2 ^ 64 - 1 < 2 ^ 64 ∧
    size_wrap (8 * ((2 ^ 64 - 1) / 8) + 8) ≤ 2 ^ 64 - 1 ∧
    (∀ fuel, loop_counts fuel (2 ^ 64 - 1) = .error .out_of_fuel) ∧
    (∀ (fuel : Nat) (a b : List ℚ),
      (∃ e, simsimd_avx2_f16_l2sq fuel a b (2 ^ 64 - 1) = .error e) ∧
      (∃ e, simsimd_avx2_f16_ip fuel a b (2 ^ 64 - 1) = .error e) ∧
      (∀ rsqrt : ℚ → ℚ, ∃ e, simsimd_avx2_f16_cos rsqrt fuel a b (2 ^ 64 - 1) = .error e)) := by
  refine ⟨by decide, by decide, ?_, ?_⟩
  · intro fuel
    unfold loop_counts
    rw [chunk_loop_size_max_count]
    rfl
  · intro fuel a b
    refine ⟨?_, ?_, ?_⟩
    · obtain ⟨e, he⟩ := chunk_loop_size_max (l2sq_chunk_body a b) fuel 0 (_mm256_set1_ps 0)
      exact ⟨e, by rw [l2sq_chunk_loop_eq, he, error_bind]⟩
    · obtain ⟨e, he⟩ := chunk_loop_size_max (ip_chunk_body a b) fuel 0 (_mm256_set1_ps 0)
      exact ⟨e, by rw [ip_chunk_loop_eq, he, error_bind]⟩
    · intro rsqrt
      obtain ⟨e, he⟩ := chunk_loop_size_max (cos_chunk_body a b) fuel 0
        (_mm256_set1_ps 0, _mm256_set1_ps 0, _mm256_set1_ps 0)
      exact ⟨e, by rw [cos_chunk_loop_eq, he, error_bind]⟩

/-- C14: the horizontal reduction idiom of the kernels is an 8-lane sum: for
every register `v`, `_mm256_permute2f128_ps v v 1` is `v` with its two 128-bit
halves exchanged, and after `v := add (permute2f128 v v 1) v`, `v := hadd v v`,
`v := hadd v v` the lane stored by `_mm_store_ss` of the low half is
`v0 + v1 + v2 + v3 + v4 + v5 + v6 + v7`. -/
theorem horizontal_reduction_lane0 {α : Type} [CommRing α] (v : M256 α) :
    _mm256_permute2f128_ps v v 1 = ⟨v.e4, v.e5, v.e6, v.e7, v.e0, v.e1, v.e2, v.e3⟩ ∧
    _mm_store_ss (_mm256_castps256_ps128
      (_mm256_hadd_ps
        (_mm256_hadd_ps (_mm256_add_ps (_mm256_permute2f128_ps v v 1) v)
          (_mm256_add_ps (_mm256_permute2f128_ps v v 1) v))
        (_mm256_hadd_ps (_mm256_add_ps (_mm256_permute2f128_ps v v 1) v)
          (_mm256_add_ps (_mm256_permute2f128_ps v v 1) v)))) =
      v.e0 + v.e1 + v.e2 + v.e3 + v.e4 + v.e5 + v.e6 + v.e7 := by
  refine ⟨?_, ?_⟩
  · simp [_mm256_permute2f128_ps, select4]
  · exact reduce_lanes_eq v

/-- C16: for vectors `a`, `b` of length `n` (`n + 8` representable as a
`simsimd_size_t`, enough fuel), the fused cosine kernel agrees with the
composition of three inner-product kernels and the same `rsqrt`:
`cos (a, b) = ip (a, b) * rsqrt (ip (a, a) * ip (b, b))`. -/
theorem simsimd_avx2_f16_cos_eq_ip {α : Type} [CommRing α] (rsqrt : α → α) (fuel : Nat)
    (a b : List α) (n : Nat) (ha : a.length = n) (hb : b.length = n) (hn : n + 8 < 2 ^ 64)
    (hf : n < fuel) :
    ∃ ab aa bb, simsimd_avx2_f16_ip fuel a b n = .ok ab ∧
      simsimd_avx2_f16_ip fuel a a n = .ok aa ∧
      simsimd_avx2_f16_ip fuel b b n = .ok bb ∧
      simsimd_avx2_f16_cos rsqrt fuel a b n = .ok (ab * rsqrt (aa * bb)) ∧
      simsimd_avx2_f16_cos rsqrt fuel a b n = (do
        let ab ← simsimd_avx2_f16_ip fuel a b n
        let aa ← simsimd_avx2_f16_ip fuel a a n
        let bb ← simsimd_avx2_f16_ip fuel b b n
        pure (ab * rsqrt (aa * bb))) := by
  have h1 := ip_closed fuel a b n (by omega) (by omega) hn hf
  have h2 := ip_closed fuel a a n (by omega) (by omega) hn hf
  have h3 := ip_closed fuel b b n (by omega) (by omega) hn hf
  have h4 := cos_closed rsqrt fuel a b n (by omega) (by omega) hn hf
  refine ⟨_, _, _, h1, h2, h3, h4, ?_⟩
  rw [h1, h2, h3, h4]
  rfl

/-- Witness of C16: rational vectors of length 9. -/
theorem simsimd_avx2_f16_cos_eq_ip_witness :
    (([1, 2, 3, 4, 5, 6, 7, 8, 9] : List ℚ).length = 9 ∧
      ([9, 8, 7, 6, 5, 4, 3, 2, 1] : List ℚ).length = 9 ∧ 9 + 8 < 2 ^ 64 ∧ 9 < 10) ∧
    ∃ ab aa bb, simsimd_avx2_f16_ip 10 ([1, 2, 3, 4, 5, 6, 7, 8, 9] : List ℚ)
        [9, 8, 7, 6, 5, 4, 3, 2, 1] 9 = .ok ab ∧
      simsimd_avx2_f16_ip 10 ([1, 2, 3, 4, 5, 6, 7, 8, 9] : List ℚ)
        [1, 2, 3, 4, 5, 6, 7, 8, 9] 9 = .ok aa ∧
      simsimd_avx2_f16_ip 10 ([9, 8, 7, 6, 5, 4, 3, 2, 1] : List ℚ)
        [9, 8, 7, 6, 5, 4, 3, 2, 1] 9 = .ok bb ∧
      simsimd_avx2_f16_cos (fun x : ℚ => x / 3) 10 ([1, 2, 3, 4, 5, 6, 7, 8, 9] : List ℚ)
        [9, 8, 7, 6, 5, 4, 3, 2, 1] 9 = .ok (ab * (fun x : ℚ => x / 3) (aa * bb)) :=
  have h := simsimd_avx2_f16_cos_eq_ip (fun x : ℚ => x / 3) 10
    ([1, 2, 3, 4, 5, 6, 7, 8, 9] : List ℚ) [9, 8, 7, 6, 5, 4, 3, 2, 1] 9 rfl rfl
    (by decide) (by decide)
  ⟨⟨rfl, rfl, by decide, by decide⟩,
    h.elim fun ab h => h.elim fun aa h => h.elim fun bb h =>
      ⟨ab, aa, bb, h.1, h.2.1, h.2.2.1, h.2.2.2.1⟩⟩

/-- C17: over an ordered ring of values, for vectors `a`, `b` of length `n`
(`n + 8` representable as a `simsimd_size_t`, enough fuel),
`simsimd_avx2_f16_l2sq` returns `0` if and only if `a[i] = b[i]` for every
`i < n`. -/
theorem simsimd_avx2_f16_l2sq_eq_zero_iff {α : Type} [LinearOrderedCommRing α] (fuel : Nat)
    (a b : List α) (n : Nat) (ha : a.length = n) (hb : b.length = n) (hn : n + 8 < 2 ^ 64)
    (hf : n < fuel) :
    simsimd_avx2_f16_l2sq fuel a b n = .ok 0 ↔ ∀ i, i < n → a.getD i 0 = b.getD i 0 := by
  rw [l2sq_closed fuel a b n (by omega) (by omega) hn hf, Except.ok.injEq,
    sum_eq_zero_iff_of_nonneg (fun _ _ => mul_self_nonneg _)]
  constructor
  · intro h i hi
    have := h i (mem_range.mpr hi)
    exact sub_eq_zero.mp (mul_self_eq_zero.mp this)
  · intro h i hi
    have := h i (mem_range.mp hi)
    simp only [l2sq_term, this, sub_self, mul_zero]

/-- Witness of C17: two equal rational vectors of length 9 are at distance 0. -/
theorem simsimd_avx2_f16_l2sq_eq_zero_iff_witness :
    (([1, 2, 3, 4, 5, 6, 7, 8, 9] : List ℚ).length = 9 ∧ 9 + 8 < 2 ^ 64 ∧ 9 < 10) ∧
    (simsimd_avx2_f16_l2sq 10 ([1, 2, 3, 4, 5, 6, 7, 8, 9] : List ℚ)
        [1, 2, 3, 4, 5, 6, 7, 8, 9] 9 = .ok 0 ↔
      ∀ i, i < 9 → ([1, 2, 3, 4, 5, 6, 7, 8, 9] : List ℚ).getD i 0 =
        ([1, 2, 3, 4, 5, 6, 7, 8, 9] : List ℚ).getD i 0) :=
  ⟨⟨rfl, by decide, by decide⟩,
    simsimd_avx2_f16_l2sq_eq_zero_iff 10 _ _ 9 rfl rfl (by decide) (by decide)⟩

/-- C18: `simsimd_avx2_f16_ip` and `simsimd_avx2_f16_cos` are symmetric in their
two vector arguments, for every pair of vectors, every length, every `rsqrt`
and every amount of fuel (faulting runs included). -/
theorem simsimd_avx2_f16_ip_cos_symm {α : Type} [CommRing α] (rsqrt : α → α) (fuel : Nat)
    (a b : List α) (n : Nat) :
    simsimd_avx2_f16_ip fuel a b n = simsimd_avx2_f16_ip fuel b a n ∧
    simsimd_avx2_f16_cos rsqrt fuel a b n = simsimd_avx2_f16_cos rsqrt fuel b a n :=
  ⟨ip_symm_aux fuel a b n, cos_symm_aux rsqrt fuel a b n⟩

/-- C19: for vectors `a`, `b` of length `n` (`n + 8` representable as a
`simsimd_size_t`, enough fuel), the kernels are consistent:
`l2sq (a, b) = ip (a, a) - 2 * ip (a, b) + ip (b, b)`. -/
theorem simsimd_avx2_f16_l2sq_eq_ip {α : Type} [CommRing α] (fuel : Nat) (a b : List α)
    (n : Nat) (ha : a.length = n) (hb : b.length = n) (hn : n + 8 < 2 ^ 64) (hf : n < fuel) :
    ∃ d aa ab bb, simsimd_avx2_f16_l2sq fuel a b n = .ok d ∧
      simsimd_avx2_f16_ip fuel a a n = .ok aa ∧
      simsimd_avx2_f16_ip fuel a b n = .ok ab ∧
      simsimd_avx2_f16_ip fuel b b n = .ok bb ∧
      d = aa - 2 * ab + bb := by
  refine ⟨_, _, _, _, l2sq_closed fuel a b n (by omega) (by omega) hn hf,
    ip_closed fuel a a n (by omega) (by omega) hn hf,
    ip_closed fuel a b n (by omega) (by omega) hn hf,
    ip_closed fuel b b n (by omega) (by omega) hn hf, ?_⟩
  have ht : ∀ i, l2sq_term a b i = ip_term a a i - 2 * ip_term a b i + ip_term b b i := by
    intro i
    simp only [l2sq_term, ip_term]
    ring
  simp only [ht, sum_add_distrib, sum_sub_distrib, ← mul_sum]

/-- Witness of C19: rational vectors of length 9. -/
theorem simsimd_avx2_f16_l2sq_eq_ip_witness :
    (([1, 2, 3, 4, 5, 6, 7, 8, 9] : List ℚ).length = 9 ∧
      ([9, 8, 7, 6, 5, 4, 3, 2, 1] : List ℚ).length = 9 ∧ 9 + 8 < 2 ^ 64 ∧ 9 < 10) ∧
    ∃ d aa ab bb, simsimd_avx2_f16_l2sq 10 ([1, 2, 3, 4, 5, 6, 7, 8, 9] : List ℚ)
        [9, 8, 7, 6, 5, 4, 3, 2, 1] 9 = .ok d ∧
      simsimd_avx2_f16_ip 10 ([1, 2, 3, 4, 5, 6, 7, 8, 9] : List ℚ)
        [1, 2, 3, 4, 5, 6, 7, 8, 9] 9 = .ok aa ∧
      simsimd_avx2_f16_ip 10 ([1, 2, 3, 4, 5, 6, 7, 8, 9] : List ℚ)
        [9, 8, 7, 6, 5, 4, 3, 2, 1] 9 = .ok ab ∧
      simsimd_avx2_f16_ip 10 ([9, 8, 7, 6, 5, 4, 3, 2, 1] : List ℚ)
        [9, 8, 7, 6, 5, 4, 3, 2, 1] 9 = .ok bb ∧
      d = aa - 2 * ab + bb :=
  ⟨⟨rfl, rfl, by decide, by decide⟩,
    simsimd_avx2_f16_l2sq_eq_ip 10 _ _ 9 rfl rfl (by decide) (by decide)⟩

end Claims

end SimSIMD
